import Mathlib

/-!
Verification development for the zbus repository core: the client/server
authentication handshake state machines (src/zbus/src/handshake.rs) and the
serialization entry points (src/zvariant/src/ser.rs).

Byte streams carried over the handshake socket are modelled as `List Char`
(the protocol is line-oriented ASCII text; each `Char` stands for one byte).
Rust strings are modelled as `List Char` as well.
-/

set_option maxHeartbeats 1000000

namespace Zbus

/-- Characters of a Rust string literal. -/
def strL (s : String) : List Char := s.toList

/-- Carriage return. -/
def crC : Char := Char.ofNat 13

/-- Line feed. -/
def lfC : Char := Char.ofNat 10

/-- NUL byte sent first by the client. -/
def nulC : Char := Char.ofNat 0

/-- The CRLF line terminator of the SASL wire protocol. -/
def crlf : List Char := [crC, lfC]

/-- Whitespace test of Rust `char::is_whitespace`, restricted to the ASCII
range (the protocol lines quantified over in the theorems are ASCII; on
ASCII this agrees exactly with the Unicode predicate Rust uses). -/
def isWsChar (c : Char) : Bool :=
  c.toNat == 9 || c.toNat == 10 || c.toNat == 11 || c.toNat == 12 ||
  c.toNat == 13 || c.toNat == 32

/-- Accumulator-based splitter behind `splitWhitespace` (Rust
`str::split_whitespace`): `acc` holds the current token reversed. -/
def splitWhitespaceAux : List Char → List Char → List (List Char)
  | [], acc => if acc.isEmpty then [] else [acc.reverse]
  | c :: rest, acc =>
    if isWsChar c then
      if acc.isEmpty then splitWhitespaceAux rest []
      else acc.reverse :: splitWhitespaceAux rest []
    else splitWhitespaceAux rest (c :: acc)

/-- Rust `str::split_whitespace`, collected to a list of tokens. -/
def splitWhitespace (s : List Char) : List (List Char) :=
  splitWhitespaceAux s []

/-- Rust `BufRead::read_line` on an in-memory slice: takes everything up to
and including the first line feed (the whole input when there is none). -/
def readLine : List Char → List Char
  | [] => []
  | c :: rest => if c.toNat = 10 then [c] else c :: readLine rest

/-- Rust `slice::chunks(2)`: consecutive pairs, a final singleton when the
length is odd. -/
def chunks2 : List Char → List (List Char)
  | [] => []
  | [a] => [[a]]
  | a :: b :: rest => [a, b] :: chunks2 rest

/-- Value of an ASCII hex digit, `none` for any other character
(matches the digits accepted by Rust `u8::from_str_radix(_, 16)`). -/
def hexDigitVal (c : Char) : Option Nat :=
  if 48 ≤ c.toNat ∧ c.toNat ≤ 57 then some (c.toNat - 48)
  else if 97 ≤ c.toNat ∧ c.toNat ≤ 102 then some (c.toNat - 87)
  else if 65 ≤ c.toNat ∧ c.toNat ≤ 70 then some (c.toNat - 55)
  else none

/-- Rust `u8::from_str_radix(s, 16)`: an optional leading `+`, then one or
more hex digits, and the value must fit in a `u8`. -/
def parseHexU8 (s : List Char) : Option Nat :=
  let t := match s with
    | c :: rest => if c.toNat = 43 then rest else s
    | [] => s
  match t.mapM hexDigitVal with
  | some ds =>
    if t.isEmpty then none
    else
      let n := ds.foldl (fun a d => a * 16 + d) 0
      if n < 256 then some n else none
  | none => none

/-- Value of an ASCII decimal digit, `none` otherwise. -/
def decDigitVal (c : Char) : Option Nat :=
  if 48 ≤ c.toNat ∧ c.toNat ≤ 57 then some (c.toNat - 48) else none

/-- Rust `u32::from_str` (`str::parse::<u32>()`): an optional leading `+`,
then one or more decimal digits, value below `2^32`.  (Rust detects
overflow during accumulation; since the accumulated value only grows,
that is equivalent to the final-value bound checked here.) -/
def parseU32 (s : List Char) : Option Nat :=
  let t := match s with
    | c :: rest => if c.toNat = 43 then rest else s
    | [] => s
  match t.mapM decDigitVal with
  | some ds =>
    if t.isEmpty then none
    else
      let n := ds.foldl (fun a d => a * 10 + d) 0
      if n < 4294967296 then some n else none
  | none => none

/-- `fn id_from_str` from src/zbus/src/handshake.rs: split the byte string
into 2-byte chunks, decode each chunk as a hex `u8`, collect the resulting
characters, and parse the result as a decimal `u32`. -/
def id_from_str (s : List Char) : Option Nat :=
  match (chunks2 s).mapM (fun ch => (parseHexU8 ch).map Char.ofNat) with
  | some cs => parseU32 cs
  | none => none

/-- Little-endian base-`b` digits with explicit fuel (structural recursion so
that concrete instances reduce in the kernel). -/
def natDigitsAux (b : Nat) : Nat → Nat → List Nat
  | 0, _ => []
  | fuel + 1, n => if n = 0 then [] else n % b :: natDigitsAux b fuel (n / b)

/-- Little-endian base-`b` digits of `n` (`[]` for `0`). -/
def natDigits (b n : Nat) : List Nat := natDigitsAux b n n

/-- ASCII character of a decimal digit. -/
def decChar (d : Nat) : Char := Char.ofNat (48 + d)

/-- ASCII character of a lowercase hex digit, as produced by Rust
format specifier `{:x}`. -/
def hexChar (d : Nat) : Char := Char.ofNat (if d < 10 then 48 + d else 87 + d)

/-- Rust `u32::to_string`: decimal representation, most significant first. -/
def natToDecimal (n : Nat) : List Char :=
  if n = 0 then [decChar 0] else ((natDigits 10 n).map decChar).reverse

/-- Rust `format!("{:x}", n)`: lowercase hex, most significant first. -/
def natToHex (n : Nat) : List Char :=
  if n = 0 then [hexChar 0] else ((natDigits 16 n).map hexChar).reverse

/-- The hex-encoded UID the client builds in its `Init` step: each character
of the decimal representation of the UID is replaced by the lowercase hex
encoding of its ASCII code (`format!("{:x}", c as u32)` per character). -/
def uidHexChars (uid : Nat) : List Char :=
  (natToDecimal uid).flatMap (fun c => natToHex c.toNat)

/-! ### The socket model

One endpoint of a connected in-memory socket pair (the handshake test's
`UnixStream::pair` in non-blocking mode): `rx` holds the bytes already
delivered by the peer and not yet read, `tx` accumulates everything sent. -/

structure MemSocket where
  rx : List Char
  tx : List Char
  deriving DecidableEq

/-- `Socket::recvmsg` with a buffer of `bufSize` bytes: with no pending data
a non-blocking read reports would-block (`none`); otherwise it returns up to
`bufSize` of the pending bytes. -/
def recvmsg (bufSize : Nat) (s : MemSocket) : Option (List Char × MemSocket) :=
  if s.rx.isEmpty then none
  else some (s.rx.take bufSize, { s with rx := s.rx.drop bufSize })

/-- `Socket::sendmsg`: the in-memory stream accepts the whole buffer and
returns the number of bytes written. -/
def sendmsg (s : MemSocket) (buf : List Char) : Nat × MemSocket :=
  (buf.length, { s with tx := s.tx ++ buf })

/-- Validity of a server GUID.  Modelled from the spec: guid.rs is not under
src/, and the spec describes the session identifier as a fixed-length hex
token (the D-Bus GUID: 32 lowercase hex characters) whose parse failure is a
handshake error. -/
def validGuid (l : List Char) : Bool :=
  l.length == 32 &&
  l.all (fun c => (48 ≤ c.toNat && c.toNat ≤ 57) || (97 ≤ c.toNat && c.toNat ≤ 102))

/-- A server GUID (spec-modelled, see `validGuid`). -/
def Guid : Type := { l : List Char // validGuid l = true }

instance : DecidableEq Guid := fun a b => by
  unfold Guid; infer_instance

/-- `Guid::try_from(&str)` (spec-modelled): succeeds exactly on valid GUID
strings. -/
def Guid.tryFrom (l : List Char) : Option Guid :=
  if h : validGuid l = true then some ⟨l, h⟩ else none

/-- Outcome of the read loop inside `read_command`. -/
inductive ReadFlag where
  | ok
  | wouldBlock
  | outOfFuel
  deriving DecidableEq

/-- The loop body shared by `ClientHandshake::read_command` and
`ServerHandshake::read_command`: while the accumulated buffer does not end
in CRLF, `recvmsg` up to 40 bytes (`let mut buf = [0; 40]`) and append them.
`fuel` only bounds the recursion; callers pass `rx.length + 1`, which the
loop can never exhaust since every iteration either returns or consumes at
least one byte of `rx`. -/
def readLoopF : Nat → MemSocket → List Char → ReadFlag × List Char × MemSocket
  | 0, sock, buf => (.outOfFuel, buf, sock)
  | fuel + 1, sock, buf =>
    if crlf.isSuffixOf buf then (.ok, buf, sock)
    else match recvmsg 40 sock with
      | none => (.wouldBlock, buf, sock)
      | some (bs, sock') => readLoopF fuel sock' (buf ++ bs)

/-- Result of one `advance_handshake` call. -/
inductive AdvRes where
  | ok
  | wouldBlock
  | fatal (msg : List Char)
  | outOfFuel
  deriving DecidableEq

/-! ### Client handshake (src/zbus/src/handshake.rs, `ClientHandshake`) -/

inductive ClientStep where
  | init
  | waitOauth
  | waitNegociateFd
  | done
  deriving DecidableEq

structure ClientHandshake where
  socket : MemSocket
  recvBuffer : List Char
  sendBuffer : List Char
  step : ClientStep
  serverGuid : Option Guid
  capUnixFd : Bool
  /-- The result of `Uid::current()`, an ambient parameter of the process. -/
  uid : Nat
  deriving DecidableEq

/-- `ClientHandshake::new`. -/
def ClientHandshake.new (uid : Nat) : ClientHandshake :=
  { socket := ⟨[], []⟩, recvBuffer := [], sendBuffer := [],
    step := .init, serverGuid := none, capUnixFd := false, uid := uid }

/-- `ClientHandshake::flush_buffer`: the source loops
`sendmsg`/`drain(..written)` while the send buffer is non-empty; the
in-memory socket accepts the whole buffer, so the loop body runs at most
once. -/
def ClientHandshake.flushBuffer (h : ClientHandshake) : ClientHandshake :=
  if h.sendBuffer.isEmpty then h
  else
    let (written, sock) := sendmsg h.socket h.sendBuffer
    { h with socket := sock, sendBuffer := h.sendBuffer.drop written }

/-- `ClientHandshake::read_command`.  Note the first statement of the source:
`self.recv_buffer.clear(); // maybe until \r\n instead?` — any bytes already
accumulated are discarded before reading. -/
def ClientHandshake.readCommand (h : ClientHandshake) :
    ReadFlag × ClientHandshake :=
  let (flag, buf, sock) := readLoopF (h.socket.rx.length + 1) h.socket []
  (flag, { h with recvBuffer := buf, socket := sock })

/-- The `AUTH EXTERNAL <hex-uid>` request line built in the `Init` step
(without the leading NUL byte). -/
def authLine (uid : Nat) : List Char :=
  strL "AUTH EXTERNAL " ++ uidHexChars uid ++ crlf

def negotiateLine : List Char := strL "NEGOTIATE_UNIX_FD" ++ crlf
def beginLine : List Char := strL "BEGIN" ++ crlf
def agreeLine : List Char := strL "AGREE_UNIX_FD" ++ crlf
def rejectedLine : List Char := strL "REJECTED EXTERNAL" ++ crlf
def errUnsupportedLine : List Char := strL "ERROR Unsupported command" ++ crlf

/-- `OK <guid>` reply formatted by the server. -/
def okLine (g : Guid) : List Char := strL "OK " ++ g.val ++ crlf

def msgUnexpectedAuthReply : List Char := strL "Unexpected server AUTH reply"
def msgUnexpectedFdReply : List Char := strL "Unexpected server UNIX_FD reply"
def msgInvalidGuid : List Char := strL "Invalid GUID"
def msgNotNul : List Char := strL "First client byte is not NUL!"
def msgInvalidUid : List Char := strL "Invalid UID"
def msgBeginNotAuth : List Char := strL "Received BEGIN while not authenticated"

/-- Dispatch of the `WaitOauth` reply: the source matches the first three
`split_whitespace` tokens against `(Some("OK"), Some(guid), None)`. -/
def clientOauthGuidTok (toks : List (List Char)) : Option (List Char) :=
  match toks with
  | [a, g] => if a = strL "OK" then some g else none
  | _ => none

/-- `ClientHandshake::advance_handshake`, the source's `loop` unrolled on
explicit fuel.  The client step only ever advances
(Init → WaitOauth → WaitNegociateFd → Done), so 4 units of fuel always reach
a `return`; `clientAdvance` below supplies them. -/
def clientAdvanceF : Nat → ClientHandshake → AdvRes × ClientHandshake
  | 0, h => (.outOfFuel, h)
  | fuel + 1, h =>
    let h := h.flushBuffer
    match h.step with
    | .init =>
      clientAdvanceF fuel
        { h with sendBuffer := nulC :: authLine h.uid, step := .waitOauth }
    | .waitOauth =>
      match h.readCommand with
      | (.ok, h) =>
        let reply := readLine h.recvBuffer
        match clientOauthGuidTok (splitWhitespace reply) with
        | some gtok =>
          match Guid.tryFrom gtok with
          | some g =>
            clientAdvanceF fuel
              { h with serverGuid := some g, sendBuffer := negotiateLine,
                       step := .waitNegociateFd }
          | none => (.fatal msgInvalidGuid, h)
        | none => (.fatal msgUnexpectedAuthReply, h)
      | (.wouldBlock, h) => (.wouldBlock, h)
      | (.outOfFuel, h) => (.outOfFuel, h)
    | .waitNegociateFd =>
      match h.readCommand with
      | (.ok, h) =>
        if (strL "AGREE_UNIX_FD").isPrefixOf h.recvBuffer then
          clientAdvanceF fuel
            { h with capUnixFd := true, sendBuffer := beginLine, step := .done }
        else if (strL "ERROR").isPrefixOf h.recvBuffer then
          clientAdvanceF fuel
            { h with capUnixFd := false, sendBuffer := beginLine, step := .done }
        else (.fatal msgUnexpectedFdReply, h)
      | (.wouldBlock, h) => (.wouldBlock, h)
      | (.outOfFuel, h) => (.outOfFuel, h)
    | .done => (.ok, h)

/-- `ClientHandshake::advance_handshake`. -/
def clientAdvance (h : ClientHandshake) : AdvRes × ClientHandshake :=
  clientAdvanceF 4 h

/-- The result of a finalized handshake (`Authenticated`); the wrapped
connection just holds the socket. -/
structure Authenticated where
  socket : MemSocket
  serverGuid : Guid
  capUnixFd : Bool
  deriving DecidableEq

/-- `ClientHandshake::try_finish`: only valid once the step is `Done`
(the source unwraps `server_guid`, which is always set at `Done`). -/
def ClientHandshake.tryFinish (h : ClientHandshake) : Option Authenticated :=
  if h.step = .done then
    h.serverGuid.map (fun g => ⟨h.socket, g, h.capUnixFd⟩)
  else none

/-! ### Server handshake (src/zbus/src/handshake.rs, `ServerHandshake`) -/

inductive ServerStep where
  | waitingForNull
  | waitingForAuth
  | sendingAuthOK
  | sendingAuthError
  | waitingForBegin
  | sendingBeginMessage
  | done
  deriving DecidableEq

structure ServerHandshake where
  socket : MemSocket
  /-- One buffer doubles as receive and send buffer on the server side. -/
  buffer : List Char
  step : ServerStep
  serverGuid : Guid
  capUnixFd : Bool
  clientUid : Nat
  deriving DecidableEq

/-- `ServerHandshake::new`. -/
def ServerHandshake.new (g : Guid) (clientUid : Nat) : ServerHandshake :=
  { socket := ⟨[], []⟩, buffer := [], step := .waitingForNull,
    serverGuid := g, capUnixFd := false, clientUid := clientUid }

/-- `ServerHandshake::flush_buffer` (same loop as the client's). -/
def ServerHandshake.flushBuffer (h : ServerHandshake) : ServerHandshake :=
  if h.buffer.isEmpty then h
  else
    let (written, sock) := sendmsg h.socket h.buffer
    { h with socket := sock, buffer := h.buffer.drop written }

/-- `ServerHandshake::read_command`: unlike the client's, it does NOT clear
the buffer first — it extends whatever is already there until CRLF. -/
def ServerHandshake.readCommand (h : ServerHandshake) :
    ReadFlag × ServerHandshake :=
  let (flag, buf, sock) := readLoopF (h.socket.rx.length + 1) h.socket h.buffer
  (flag, { h with buffer := buf, socket := sock })

/-- Dispatch of a `WaitingForAuth` line: the source matches the first four
`split_whitespace` tokens, in order:
`(Some("AUTH"), Some("EXTERNAL"), Some(uid), None)`, then
`(Some("AUTH"), _, _, _) | (Some("ERROR"), _, _, _)`, then
`(Some("BEGIN"), None, None, None)`, then the catch-all. -/
inductive AuthDispatch where
  | authExternal (uidTok : List Char)
  | reject
  | beginEarly
  | unsupported
  deriving DecidableEq

def serverAuthDispatch (toks : List (List Char)) : AuthDispatch :=
  match toks with
  | [a, e, u] =>
    if a = strL "AUTH" ∧ e = strL "EXTERNAL" then .authExternal u
    else if a = strL "AUTH" ∨ a = strL "ERROR" then .reject
    else .unsupported
  | a :: rest =>
    if a = strL "AUTH" ∨ a = strL "ERROR" then .reject
    else if a = strL "BEGIN" ∧ rest = [] then .beginEarly
    else .unsupported
  | [] => .unsupported

/-- Dispatch of a `WaitingForBegin` line: the source matches the first two
tokens against `(Some("BEGIN"), None)`, `(Some("CANCEL"), None)`,
`(Some("ERROR"), _)`, `(Some("NEGOTIATE_UNIX_FD"), None)`, catch-all. -/
inductive BeginDispatch where
  | beginOk
  | cancel
  | errorLine
  | negotiate
  | unsupported
  deriving DecidableEq

def serverBeginDispatch (toks : List (List Char)) : BeginDispatch :=
  match toks with
  | [a] =>
    if a = strL "BEGIN" then .beginOk
    else if a = strL "CANCEL" then .cancel
    else if a = strL "ERROR" then .errorLine
    else if a = strL "NEGOTIATE_UNIX_FD" then .negotiate
    else .unsupported
  | a :: _ =>
    if a = strL "ERROR" then .errorLine else .unsupported
  | [] => .unsupported

/-- `ServerHandshake::advance_handshake`, the source's `loop` on explicit
fuel (`serverAdvance` supplies enough for the loop never to exhaust it). -/
def serverAdvanceF : Nat → ServerHandshake → AdvRes × ServerHandshake
  | 0, h => (.outOfFuel, h)
  | fuel + 1, h =>
    match h.step with
    | .waitingForNull =>
      match recvmsg 1 h.socket with
      | none => (.wouldBlock, h)
      | some (bs, sock) =>
        let h := { h with socket := sock }
        if bs.head? ≠ some nulC then (.fatal msgNotNul, h)
        else serverAdvanceF fuel { h with step := .waitingForAuth }
    | .waitingForAuth =>
      match h.readCommand with
      | (.ok, h) =>
        let reply := readLine h.buffer
        match serverAuthDispatch (splitWhitespace reply) with
        | .authExternal uidTok =>
          match id_from_str uidTok with
          | none => (.fatal msgInvalidUid, h)
          | some uid =>
            if uid = h.clientUid then
              serverAdvanceF fuel
                { h with buffer := okLine h.serverGuid, step := .sendingAuthOK }
            else
              serverAdvanceF fuel
                { h with buffer := rejectedLine, step := .sendingAuthError }
        | .reject =>
          serverAdvanceF fuel
            { h with buffer := rejectedLine, step := .sendingAuthError }
        | .beginEarly => (.fatal msgBeginNotAuth, h)
        | .unsupported =>
          serverAdvanceF fuel
            { h with buffer := errUnsupportedLine, step := .sendingAuthError }
      | (.wouldBlock, h) => (.wouldBlock, h)
      | (.outOfFuel, h) => (.outOfFuel, h)
    | .sendingAuthError =>
      serverAdvanceF fuel { h.flushBuffer with step := .waitingForAuth }
    | .sendingAuthOK =>
      serverAdvanceF fuel { h.flushBuffer with step := .waitingForBegin }
    | .waitingForBegin =>
      match h.readCommand with
      | (.ok, h) =>
        let reply := readLine h.buffer
        match serverBeginDispatch (splitWhitespace reply) with
        | .beginOk => serverAdvanceF fuel { h with step := .done }
        | .cancel =>
          serverAdvanceF fuel
            { h with buffer := rejectedLine, step := .sendingAuthError }
        | .errorLine =>
          serverAdvanceF fuel
            { h with buffer := rejectedLine, step := .sendingAuthError }
        | .negotiate =>
          serverAdvanceF fuel
            { h with capUnixFd := true, buffer := agreeLine,
                     step := .sendingBeginMessage }
        | .unsupported =>
          serverAdvanceF fuel
            { h with buffer := errUnsupportedLine, step := .sendingBeginMessage }
      | (.wouldBlock, h) => (.wouldBlock, h)
      | (.outOfFuel, h) => (.outOfFuel, h)
    | .sendingBeginMessage =>
      serverAdvanceF fuel { h.flushBuffer with step := .waitingForBegin }
    | .done => (.ok, h)

/-- `ServerHandshake::advance_handshake`.  Every pass through
`WaitingForAuth`/`WaitingForBegin` either consumes pending `rx` bytes,
reports would-block, or finishes within a bounded number of arms, so
`2 * rx.length + 8` units of fuel make the structural recursion equal to the
source's unbounded loop on all the runs examined by the theorems (each of
which exhibits an outcome other than `outOfFuel`). -/
def serverAdvance (h : ServerHandshake) : AdvRes × ServerHandshake :=
  serverAdvanceF (2 * h.socket.rx.length + 8) h

/-- `ServerHandshake::try_finish`. -/
def ServerHandshake.tryFinish (h : ServerHandshake) : Option Authenticated :=
  if h.step = .done then some ⟨h.socket, h.serverGuid, h.capUnixFd⟩ else none

/-! ### Driving a connected pair

The handshake test connects the two endpoints with `UnixStream::pair` and
alternates `advance_handshake` calls.  `pushCtoS`/`pushStoC` model the pair:
bytes written on one side become readable on the other. -/

def pushCtoS (c : ClientHandshake) (s : ServerHandshake) :
    ClientHandshake × ServerHandshake :=
  ({ c with socket := ⟨c.socket.rx, []⟩ },
   { s with socket := ⟨s.socket.rx ++ c.socket.tx, s.socket.tx⟩ })

def pushStoC (c : ClientHandshake) (s : ServerHandshake) :
    ClientHandshake × ServerHandshake :=
  ({ c with socket := ⟨c.socket.rx ++ s.socket.tx, c.socket.tx⟩ },
   { s with socket := ⟨s.socket.rx, []⟩ })

/-- One alternation round of the handshake test: advance the client, deliver
its output, advance the server, deliver its output. -/
def driveRound (c : ClientHandshake) (s : ServerHandshake) :
    (AdvRes × ClientHandshake) × (AdvRes × ServerHandshake) :=
  let (rc, c) := clientAdvance c
  let (c, s) := pushCtoS c s
  let (rs, s) := serverAdvance s
  let (c, s) := pushStoC c s
  ((rc, c), (rs, s))

/-- Alternate rounds until both sides report `Ok(())` in the same round
(as the test's loop does), failing on any fatal error. -/
def driveLoop : Nat → ClientHandshake → ServerHandshake →
    Option (ClientHandshake × ServerHandshake)
  | 0, _, _ => none
  | n + 1, c, s =>
    match driveRound c s with
    | ((.ok, c), (.ok, s)) => some (c, s)
    | ((.fatal _, _), _) => none
    | (_, (.fatal _, _)) => none
    | ((_, c), (_, s)) => driveLoop n c s

/-! ### Serialization entry points (src/zvariant/src/ser.rs)

The serializers themselves (`dbus::Serializer`, `gvariant::Serializer`) are
not under src/ — only their shared plumbing (`SerializerCommon`, `FdList`,
`add_fd`, `add_padding`) and the entry points are.  The traversal is
modelled from the spec (section 4.3): a value is turned into a sequence of
write operations that depends only on the value, its signature and the
format context — src/ser.rs shows both entry points running the identical
`value.serialize(&mut ser)` traversal and differing only in the sink
(`NullWriteSeek` vs the real writer) and the `FdList` mode. -/

/-- `utils::padding_for_n_bytes` — modelled from the spec (section 4.1,
utils.rs is not under src/): the smallest count making `pos + count` a
multiple of `alignment`. -/
def padding_for_n_bytes (pos alignment : Nat) : Nat :=
  (alignment - pos % alignment) % alignment

/-- The bytes written by `SerializerCommon::add_padding`: the slice
`&[0u8; 8][..padding]` of a fixed 8-byte zero array. -/
def addPaddingBytes (pos alignment : Nat) : List Nat :=
  (List.replicate 8 0).take (padding_for_n_bytes pos alignment)

/-- Little-endian 4-byte encoding of a `u32` value. -/
def u32le (n : Nat) : List Nat :=
  [n % 256, n / 256 % 256, n / 65536 % 256, n / 16777216 % 256]

/-- A write operation recorded by the traversal: either plain bytes or a
file-descriptor reference whose 4-byte table index the sink resolves. -/
inductive WOp where
  | bytes (bs : List Nat)
  | fd (raw : Nat)
  deriving DecidableEq

/-- Signatures of the modelled value universe. -/
inductive Sig where
  | u8
  | u32
  | u64
  | str
  | fd
  | arr (elem : Sig)
  | structS (fields : List Sig)
  | variant

/-- Values (strings are carried as their UTF-8 bytes; `fd` holds the raw
descriptor number; a variant carries the inner value's signature).  The
value is encoded against a signature; a shape mismatch is an encode
failure. -/
inductive Val where
  | u8 (n : Nat)
  | u32 (n : Nat)
  | u64 (n : Nat)
  | str (bytes : List Nat)
  | fd (raw : Nat)
  | arr (items : List Val)
  | structV (fields : List Val)
  | variant (s : Sig) (v : Val)

/-- Wire alignment of each type in the primary (D-Bus) format
(spec section 4.3 / 6). -/
def sigAlignment : Sig → Nat
  | .u8 => 1
  | .u32 => 4
  | .u64 => 8
  | .str => 4
  | .fd => 4
  | .arr _ => 4
  | .structS _ => 8
  | .variant => 1

/-- The three container-depth counters (`container_depths.rs` is not under
src/; maxima modelled from the spec: protocol-fixed bounds per counter). -/
structure Depths where
  arrD : Nat
  structD : Nat
  variantD : Nat
  deriving DecidableEq

def Depths.zero : Depths := ⟨0, 0, 0⟩

def maxArrDepth : Nat := 32
def maxStructDepth : Nat := 32
def maxVariantDepth : Nat := 64

inductive EncErr where
  | mismatch
  | depthExceeded
  | fuelExhausted
  deriving DecidableEq

instance {ε α : Type} [DecidableEq ε] [DecidableEq α] :
    DecidableEq (Except ε α) := fun a b =>
  match a, b with
  | .ok x, .ok y =>
    if h : x = y then .isTrue (by rw [h])
    else .isFalse (fun he => h (Except.ok.inj he))
  | .error x, .error y =>
    if h : x = y then .isTrue (by rw [h])
    else .isFalse (fun he => h (Except.error.inj he))
  | .ok _, .error _ => .isFalse (fun he => Except.noConfusion he)
  | .error _, .ok _ => .isFalse (fun he => Except.noConfusion he)

/-- Textual signature of a value (for the signature string written before a
variant's payload), with fuel for the nested recursion. -/
def sigStrF : Nat → Sig → List Nat
  | 0, _ => []
  | _ + 1, .u8 => [121]
  | _ + 1, .u32 => [117]
  | _ + 1, .u64 => [116]
  | _ + 1, .str => [115]
  | _ + 1, .fd => [104]
  | fuel + 1, .arr e => 97 :: sigStrF fuel e
  | fuel + 1, .structS fs => 40 :: (fs.flatMap (sigStrF fuel) ++ [41])
  | _ + 1, .variant => [118]

/-- A unit of traversal work: one value against one signature, the items of
an array, or the fields of a struct.  (A single fueled function over tasks
replaces mutual recursion, keeping every definition kernel-reducible.) -/
inductive EncTask where
  | one (s : Sig) (v : Val)
  | items (elem : Sig) (vs : List Val)
  | fields (ss : List Sig) (vs : List Val)

/-- The D-Bus-format traversal, modelled from spec section 4.3: padding
before every scalar/container, 4-byte byte-count prefix for arrays (with no
extra padding between prefix and first element beyond the element's own
alignment), 8-byte aligned structs, length-prefixed NUL-terminated strings,
1-byte-length signature string then aligned value for variants, 4-byte table
index for descriptors, depth counters checked on entering containers.
Returns the recorded operations and the new absolute position. -/
def dbusEncGo : Nat → EncTask → Nat → Depths → Except EncErr (List WOp × Nat)
  | 0, _, _, _ => .error .fuelExhausted
  | _ + 1, .one .u8 (.u8 n), pos, _ =>
    .ok ([.bytes [n % 256]], pos + 1)
  | _ + 1, .one .u32 (.u32 n), pos, _ =>
    let pad := addPaddingBytes pos 4
    .ok ([.bytes pad, .bytes (u32le (n % 4294967296))], pos + pad.length + 4)
  | _ + 1, .one .u64 (.u64 n), pos, _ =>
    let pad := addPaddingBytes pos 8
    .ok ([.bytes pad,
          .bytes (u32le (n % 4294967296) ++ u32le (n / 4294967296 % 4294967296))],
         pos + pad.length + 8)
  | _ + 1, .one .str (.str bs), pos, _ =>
    let pad := addPaddingBytes pos 4
    .ok ([.bytes pad, .bytes (u32le bs.length), .bytes bs, .bytes [0]],
         pos + pad.length + 4 + bs.length + 1)
  | _ + 1, .one .fd (.fd raw), pos, _ =>
    let pad := addPaddingBytes pos 4
    .ok ([.bytes pad, .fd raw], pos + pad.length + 4)
  | fuel + 1, .one (.arr elem) (.arr items), pos, d =>
    if maxArrDepth < d.arrD + 1 then .error .depthExceeded
    else
      let pad := addPaddingBytes pos 4
      let lenPos := pos + pad.length
      let pad2 := addPaddingBytes (lenPos + 4) (sigAlignment elem)
      let start := lenPos + 4 + pad2.length
      match dbusEncGo fuel (.items elem items) start { d with arrD := d.arrD + 1 } with
      | .error e => .error e
      | .ok (ops, stop) =>
        .ok ([.bytes pad, .bytes (u32le (stop - start)), .bytes pad2] ++ ops, stop)
  | fuel + 1, .one (.structS fsigs) (.structV fvals), pos, d =>
    if maxStructDepth < d.structD + 1 then .error .depthExceeded
    else
      let pad := addPaddingBytes pos 8
      match dbusEncGo fuel (.fields fsigs fvals) (pos + pad.length)
          { d with structD := d.structD + 1 } with
      | .error e => .error e
      | .ok (ops, stop) => .ok (.bytes pad :: ops, stop)
  | fuel + 1, .one .variant (.variant s v), pos, d =>
    if maxVariantDepth < d.variantD + 1 then .error .depthExceeded
    else
      let sstr := sigStrF fuel s
      let sigPos := pos + 1 + sstr.length + 1
      match dbusEncGo fuel (.one s v) sigPos { d with variantD := d.variantD + 1 } with
      | .error e => .error e
      | .ok (ops, stop) =>
        .ok (.bytes (sstr.length % 256 :: (sstr ++ [0])) :: ops, stop)
  | _ + 1, .one _ _, _, _ => .error .mismatch
  | _ + 1, .items _ [], pos, _ => .ok ([], pos)
  | fuel + 1, .items elem (v :: rest), pos, d =>
    match dbusEncGo fuel (.one elem v) pos d with
    | .error e => .error e
    | .ok (ops, pos') =>
      match dbusEncGo fuel (.items elem rest) pos' d with
      | .error e => .error e
      | .ok (ops', pos'') => .ok (ops ++ ops', pos'')
  | _ + 1, .fields [] [], pos, _ => .ok ([], pos)
  | fuel + 1, .fields (s :: srest) (v :: vrest), pos, d =>
    match dbusEncGo fuel (.one s v) pos d with
    | .error e => .error e
    | .ok (ops, pos') =>
      match dbusEncGo fuel (.fields srest vrest) pos' d with
      | .error e => .error e
      | .ok (ops', pos'') => .ok (ops ++ ops', pos'')
  | _ + 1, .fields _ _, _, _ => .error .mismatch

/-- The alternate compact (GVariant) format traversal, modelled from the
spec: same signature grammar and depth contracts, different framing —
variable-length data uses trailing offsets instead of leading length
prefixes, strings are NUL-terminated without a prefix, a variant is its
value followed by a NUL and its signature string. -/
def gvEncGo : Nat → EncTask → Nat → Depths → Except EncErr (List WOp × Nat)
  | 0, _, _, _ => .error .fuelExhausted
  | _ + 1, .one .u8 (.u8 n), pos, _ => .ok ([.bytes [n % 256]], pos + 1)
  | _ + 1, .one .u32 (.u32 n), pos, _ =>
    let pad := addPaddingBytes pos 4
    .ok ([.bytes pad, .bytes (u32le (n % 4294967296))], pos + pad.length + 4)
  | _ + 1, .one .u64 (.u64 n), pos, _ =>
    let pad := addPaddingBytes pos 8
    .ok ([.bytes pad,
          .bytes (u32le (n % 4294967296) ++ u32le (n / 4294967296 % 4294967296))],
         pos + pad.length + 8)
  | _ + 1, .one .str (.str bs), pos, _ =>
    .ok ([.bytes bs, .bytes [0]], pos + bs.length + 1)
  | _ + 1, .one .fd (.fd raw), pos, _ =>
    let pad := addPaddingBytes pos 4
    .ok ([.bytes pad, .fd raw], pos + pad.length + 4)
  | fuel + 1, .one (.arr elem) (.arr items), pos, d =>
    if maxArrDepth < d.arrD + 1 then .error .depthExceeded
    else
      let pad := addPaddingBytes pos (sigAlignment elem)
      let start := pos + pad.length
      match gvEncGo fuel (.items elem items) start { d with arrD := d.arrD + 1 } with
      | .error e => .error e
      | .ok (ops, stop) =>
        .ok (.bytes pad :: ops ++ [.bytes (u32le (stop - start))], stop + 4)
  | fuel + 1, .one (.structS fsigs) (.structV fvals), pos, d =>
    if maxStructDepth < d.structD + 1 then .error .depthExceeded
    else
      let pad := addPaddingBytes pos 8
      match gvEncGo fuel (.fields fsigs fvals) (pos + pad.length)
          { d with structD := d.structD + 1 } with
      | .error e => .error e
      | .ok (ops, stop) => .ok (.bytes pad :: ops, stop)
  | fuel + 1, .one .variant (.variant s v), pos, d =>
    if maxVariantDepth < d.variantD + 1 then .error .depthExceeded
    else
      match gvEncGo fuel (.one s v) pos { d with variantD := d.variantD + 1 } with
      | .error e => .error e
      | .ok (ops, stop) =>
        let sstr := sigStrF fuel s
        .ok (ops ++ [.bytes (0 :: sstr)], stop + 1 + sstr.length)
  | _ + 1, .one _ _, _, _ => .error .mismatch
  | _ + 1, .items _ [], pos, _ => .ok ([], pos)
  | fuel + 1, .items elem (v :: rest), pos, d =>
    match gvEncGo fuel (.one elem v) pos d with
    | .error e => .error e
    | .ok (ops, pos') =>
      match gvEncGo fuel (.items elem rest) pos' d with
      | .error e => .error e
      | .ok (ops', pos'') => .ok (ops ++ ops', pos'')
  | _ + 1, .fields [] [], pos, _ => .ok ([], pos)
  | fuel + 1, .fields (s :: srest) (v :: vrest), pos, d =>
    match gvEncGo fuel (.one s v) pos d with
    | .error e => .error e
    | .ok (ops, pos') =>
      match gvEncGo fuel (.fields srest vrest) pos' d with
      | .error e => .error e
      | .ok (ops', pos'') => .ok (ops ++ ops', pos'')
  | _ + 1, .fields _ _, _, _ => .error .mismatch

/-- The two wire-format variants selected by the `Context`. -/
inductive Format where
  | dbus
  | gvariant
  deriving DecidableEq

/-- The traversal selected by `ctxt.format()`, starting at the context's
base stream position. -/
def opsFor (fmt : Format) (fuel : Nat) (sig : Sig) (v : Val) (pos : Nat) :
    Except EncErr (List WOp × Nat) :=
  match fmt with
  | .dbus => dbusEncGo fuel (.one sig v) pos Depths.zero
  | .gvariant => gvEncGo fuel (.one sig v) pos Depths.zero

/-- `FdList::Number` interpretation of the operations
(`SerializerCommon::add_fd`, `FdList::Number` arm: the index returned is the
running count, which is then incremented).  Returns (bytes written,
descriptor count). -/
def runNumber : List WOp → Nat → Nat → Nat × Nat
  | [], len, cnt => (len, cnt)
  | .bytes bs :: rest, len, cnt => runNumber rest (len + bs.length) cnt
  | .fd _ :: rest, len, cnt => runNumber rest (len + 4) (cnt + 1)

/-- State of the `FdList::Fds` arm: the descriptor table holds the raw
values of the *duplicated* descriptors (`try_clone_to_owned` performs a
`dup`), and `fresh` models the OS allocating each dup a descriptor number
distinct from every currently open one (so distinct from every raw fd the
caller can pass and from all previous dups). -/
structure FdState where
  table : List Nat
  fresh : Nat
  deriving DecidableEq

/-- Rust `Iterator::position`. -/
def listPosition (p : Nat → Bool) : List Nat → Option Nat
  | [] => none
  | a :: rest => if p a then some 0 else (listPosition p rest).map (· + 1)

/-- `SerializerCommon::add_fd`, `FdList::Fds` arm:
`fds.iter().position(|x| x.as_raw_fd() == fd)` compares the incoming raw fd
against the *stored dup* values; on a miss the fd is dup'ed and the dup
pushed. -/
def addFdFds (st : FdState) (fd : Nat) : Nat × FdState :=
  match listPosition (fun x => x == fd) st.table with
  | some idx => (idx, st)
  | none => (st.table.length, ⟨st.table ++ [st.fresh], st.fresh + 1⟩)

/-- `FdList::Fds` interpretation: real bytes are accumulated (the fd index
is written as a 4-byte integer) and the descriptor table is built by
`addFdFds`.  Returns (bytes, final fd state). -/
def runFds : List WOp → List Nat → FdState → List Nat × FdState
  | [], acc, st => (acc, st)
  | .bytes bs :: rest, acc, st => runFds rest (acc ++ bs) st
  | .fd raw :: rest, acc, st =>
    let (idx, st') := addFdFds st raw
    runFds rest (acc ++ u32le idx) st'

/-- The `Size` result of `serialized_size`. -/
structure SizeInfo where
  byteLen : Nat
  numFds : Nat
  deriving DecidableEq

/-- The `Written` result of a real encode. -/
structure WrittenInfo where
  bytes : List Nat
  fdTable : List Nat
  deriving DecidableEq

/-- `serialized_size(ctxt, value)`: run the traversal against the discard
sink with `FdList::Number(0)`. -/
def serializedSize (fmt : Format) (fuel : Nat) (sig : Sig) (v : Val)
    (pos : Nat) : Except EncErr SizeInfo :=
  match opsFor fmt fuel sig v pos with
  | .error e => .error e
  | .ok (ops, _) =>
    let (len, cnt) := runNumber ops 0 0
    .ok ⟨len, cnt⟩

/-- `to_bytes`/`to_writer_for_signature`: run the identical traversal
against a real sink with `FdList::Fds(vec![])`; `fresh0` is the first
descriptor number the OS hands out for a dup. -/
def toBytesModel (fmt : Format) (fuel : Nat) (sig : Sig) (v : Val)
    (pos : Nat) (fresh0 : Nat) : Except EncErr WrittenInfo :=
  match opsFor fmt fuel sig v pos with
  | .error e => .error e
  | .ok (ops, _) =>
    let (bytes, st) := runFds ops [] ⟨[], fresh0⟩
    .ok ⟨bytes, st.table⟩

/-- Bound on the raw descriptor values an operation list mentions
(decidable form of "every fd in the value was open before any dup"). -/
def opsFdBound (ops : List WOp) (bound : Nat) : Bool :=
  ops.all (fun op => match op with | .fd r => r < bound | .bytes _ => true)

/-- A concrete server GUID for witnesses and counterexamples. -/
def guidA : Guid := ⟨strL "0123456789abcdef0123456789abcdef", by decide⟩

/-- A concrete server handshake waiting for the AUTH line, with `line`
pending on the socket. -/
def serverAuthFix (line : List Char) : ServerHandshake :=
  ⟨⟨line, []⟩, [], .waitingForAuth, guidA, false, 1000⟩

/-- A concrete server handshake waiting for the BEGIN line. -/
def serverBeginFix (line : List Char) : ServerHandshake :=
  ⟨⟨line, []⟩, [], .waitingForBegin, guidA, false, 1000⟩

/-- A concrete client in `WaitOauth` whose socket holds only the first 10
bytes of the server's `OK <guid>` line (the rest is still in flight). -/
def c2partial : ClientHandshake :=
  ⟨⟨(okLine guidA).take 10, []⟩, [], [], .waitOauth, none, false, 1000⟩

/-- The same client after the first `advance_handshake` returned
would-block, once the remaining bytes of the line have arrived. -/
def c2retry : ClientHandshake :=
  { (clientAdvance c2partial).2 with
    socket := ⟨(okLine guidA).drop 10, (clientAdvance c2partial).2.socket.tx⟩ }

/-- A concrete value referencing the same descriptor (raw fd 5) twice,
with a string in between. -/
def valDupFd : Val := .structV [.fd 5, .str [104, 105], .fd 5]

/-- Its signature. -/
def sigDupFd : Sig := .structS [.fd, .str, .fd]

/-- Decidable form of the C4 freshness hypothesis: every raw fd mentioned
by the traversal of `v` is below `fresh0`, the first dup number the OS
hands out. -/
def encFdBoundOk (fmt : Format) (fuel : Nat) (sig : Sig) (v : Val)
    (pos fresh0 : Nat) : Bool :=
  match opsFor fmt fuel sig v pos with
  | .ok (ops, _) => opsFdBound ops fresh0
  | .error _ => true

/-! ### Lemmas about the two sink interpretations -/

theorem u32le_length (n : Nat) : (u32le n).length = 4 := rfl

/-- The byte counts of the counting sink and of the real sink agree
operation by operation. -/
theorem runNumber_runFds_length (ops : List WOp) :
    ∀ (len cnt : Nat) (acc : List Nat) (st : FdState),
      (runNumber ops len cnt).1 + acc.length = (runFds ops acc st).1.length + len := by
  induction ops with
  | nil => intro len cnt acc st; simp [runNumber, runFds]; omega
  | cons op rest ih =>
    intro len cnt acc st
    cases op with
    | bytes bs =>
      simp only [runNumber, runFds]
      have := ih (len + bs.length) cnt (acc ++ bs) st
      simp [List.length_append] at this ⊢
      omega
    | fd raw =>
      simp only [runNumber, runFds]
      cases hfind : addFdFds st raw with
      | mk idx st' =>
        have := ih (len + 4) (cnt + 1) (acc ++ u32le idx) st'
        simp [List.length_append, u32le_length] at this ⊢
        omega

/-- A raw fd below `F` is never found in a table whose entries are all
`≥ F`. -/
theorem listPosition_none_of_bound (t : List Nat) (F r : Nat)
    (ht : ∀ x ∈ t, F ≤ x) (hr : r < F) :
    listPosition (fun x => x == r) t = none := by
  induction t with
  | nil => rfl
  | cons a rest ih =>
    have ha : F ≤ a := ht a (List.mem_cons_self a rest)
    have hne : (a == r) = false := by
      simp only [beq_eq_false_iff_ne, ne_eq]
      omega
    simp only [listPosition, hne, if_false, Bool.false_eq_true]
    rw [ih (fun x hx => ht x (List.mem_cons_of_mem a hx))]
    rfl

/-- With every incoming raw fd below `F` and every table entry (a dup) at
least `F`, the `Fds` table grows by exactly one entry per fd operation —
the same count the `Number` sink computes. -/
theorem runFds_table_length (ops : List WOp) :
    ∀ (F len cnt : Nat) (acc : List Nat) (st : FdState),
      opsFdBound ops F = true → F ≤ st.fresh → (∀ x ∈ st.table, F ≤ x) →
      (runFds ops acc st).2.table.length + cnt =
        (runNumber ops len cnt).2 + st.table.length := by
  induction ops with
  | nil => intro F len cnt acc st _ _ _; simp [runNumber, runFds]; omega
  | cons op rest ih =>
    intro F len cnt acc st hb hf htab
    cases op with
    | bytes bs =>
      simp only [opsFdBound, List.all_cons, Bool.and_eq_true] at hb
      simpa [runNumber, runFds] using
        ih F (len + bs.length) cnt (acc ++ bs) st hb.2 hf htab
    | fd raw =>
      simp only [opsFdBound, List.all_cons, Bool.and_eq_true,
        decide_eq_true_eq] at hb
      have hfind := listPosition_none_of_bound st.table F raw htab hb.1
      have hstep : addFdFds st raw =
          (st.table.length, ⟨st.table ++ [st.fresh], st.fresh + 1⟩) := by
        simp [addFdFds, hfind]
      have htab' : ∀ x ∈ st.table ++ [st.fresh], F ≤ x := by
        intro x hx
        rcases List.mem_append.mp hx with h | h
        · exact htab x h
        · simp at h; omega
      have := ih F (len + 4) (cnt + 1) (acc ++ u32le st.table.length)
        ⟨st.table ++ [st.fresh], st.fresh + 1⟩ hb.2 (by simpa using Nat.le_succ_of_le hf) htab'
      simp only [runNumber, runFds, hstep] at this ⊢
      simp [List.length_append] at this ⊢
      omega

/-! ### Claims C3, C4, C5, C10 -/

/-- C3: `serialized_size(ctxt, v)` succeeds exactly when a real encode of
`v` under the same context succeeds, and on success the byte length it
reports equals the number of bytes the real encode writes, for both
wire-format variants.  (Both entry points run the identical traversal
`opsFor` and differ only in the sink and the `FdList` mode, exactly as in
src/zvariant/src/ser.rs; the real encode targets the in-memory sink of
`to_bytes`, and descriptor duplication is modelled as infallible.) -/
theorem serialized_size_matches_real_encode
    (fmt : Format) (fuel : Nat) (sig : Sig) (v : Val) (pos fresh0 : Nat) :
    ((serializedSize fmt fuel sig v pos).isOk =
      (toBytesModel fmt fuel sig v pos fresh0).isOk) ∧
    (∀ sz w, serializedSize fmt fuel sig v pos = .ok sz →
      toBytesModel fmt fuel sig v pos fresh0 = .ok w →
      sz.byteLen = w.bytes.length) := by
  unfold serializedSize toBytesModel
  cases hops : opsFor fmt fuel sig v pos with
  | error e => exact ⟨rfl, by intro sz w hsz; exact absurd hsz (by simp)⟩
  | ok p =>
    obtain ⟨ops, stop⟩ := p
    constructor
    · rfl
    · intro sz w hsz hw
      have hlen := runNumber_runFds_length ops 0 0 [] ⟨[], fresh0⟩
      simp only [List.length_nil, Nat.add_zero] at hlen
      simp only [Except.ok.injEq] at hsz hw
      rw [← hsz, ← hw]
      simpa using hlen

/-- C3 witness at a concrete input. -/
theorem serialized_size_matches_real_encode_witness :
    ((serializedSize .dbus 10 sigDupFd valDupFd 0).isOk =
      (toBytesModel .dbus 10 sigDupFd valDupFd 0 100).isOk) ∧
    (∀ sz w, serializedSize .dbus 10 sigDupFd valDupFd 0 = .ok sz →
      toBytesModel .dbus 10 sigDupFd valDupFd 0 100 = .ok w →
      sz.byteLen = w.bytes.length) :=
  serialized_size_matches_real_encode .dbus 10 sigDupFd valDupFd 0 100

/-- C4: the descriptor count reported by `serialized_size` equals the
number of entries in the descriptor table produced by a real encode, even
for a value referencing the same descriptor more than once — because, as
modelled from the source, the `FdList::Fds` identity check compares against
the stored *dup'd* descriptors and therefore never coalesces a repeated raw
fd, so both sinks count one entry per `add_fd` call.  The hypothesis states
that every raw fd in the value is below the first dup number the OS hands
out (raw fds are open descriptors, dups are freshly allocated). -/
theorem fd_count_matches_fd_table
    (fmt : Format) (fuel : Nat) (sig : Sig) (v : Val) (pos fresh0 : Nat)
    (hb : encFdBoundOk fmt fuel sig v pos fresh0 = true) :
    ∀ sz w, serializedSize fmt fuel sig v pos = .ok sz →
      toBytesModel fmt fuel sig v pos fresh0 = .ok w →
      sz.numFds = w.fdTable.length := by
  unfold serializedSize toBytesModel
  unfold encFdBoundOk at hb
  cases hops : opsFor fmt fuel sig v pos with
  | error e => intro sz w hsz; exact absurd hsz (by simp)
  | ok p =>
    obtain ⟨ops, stop⟩ := p
    rw [hops] at hb
    intro sz w hsz hw
    simp only [Except.ok.injEq] at hsz hw
    rw [← hsz, ← hw]
    have := runFds_table_length ops fresh0 0 0 [] ⟨[], fresh0⟩ hb
      (Nat.le_refl _) (by intro x hx; simp at hx)
    simpa using this.symm

/-- C4 witness: the concrete value references raw fd 5 twice; both paths
report two descriptors (the size-only path counts 2, the real encode's
table has the two dup'd entries 100 and 101). -/
theorem fd_count_matches_fd_table_witness :
    (⟨16, 2⟩ : SizeInfo).numFds =
      (⟨[0, 0, 0, 0, 2, 0, 0, 0, 104, 105, 0, 0, 1, 0, 0, 0],
        [100, 101]⟩ : WrittenInfo).fdTable.length ∧
    serializedSize .dbus 10 sigDupFd valDupFd 0 = .ok ⟨16, 2⟩ ∧
    toBytesModel .dbus 10 sigDupFd valDupFd 0 100 =
      .ok ⟨[0, 0, 0, 0, 2, 0, 0, 0, 104, 105, 0, 0, 1, 0, 0, 0], [100, 101]⟩ :=
  ⟨fd_count_matches_fd_table .dbus 10 sigDupFd valDupFd 0 100 (by decide)
    ⟨16, 2⟩ _ (by decide) (by decide), by decide, by decide⟩

/-- C5 (code bug): evaluating `add_fd` (FdList::Fds arm) twice with the
same raw descriptor 5, with the OS handing out 100 and 101 as dup numbers:
the identity check `position(|x| x.as_raw_fd() == fd)` compares 5 against
the stored dup value 100, misses, and a second entry is appended — the two
calls return the *different* indices 0 and 1 and the table ends with two
entries, contrary to the documented dedup contract. -/
theorem add_fd_duplicate_eval :
    addFdFds ⟨[], 100⟩ 5 = (0, ⟨[100], 101⟩) ∧
    addFdFds ⟨[100], 101⟩ 5 = (1, ⟨[100, 101], 102⟩) ∧
    ((addFdFds (addFdFds ⟨[], 100⟩ 5).2 5).2.table.length = 2 ∧
      (addFdFds ⟨[], 100⟩ 5).1 ≠ (addFdFds (addFdFds ⟨[], 100⟩ 5).2 5).1) := by
  refine ⟨by decide, by decide, by decide, by decide⟩

/-- C10: for every stream position and every power-of-two alignment at most
8, the padding computed by `add_padding` is strictly below 8, so the slice
`&[0u8; 8][..padding]` is always in bounds (the modelled slice returns
exactly `padding` zero bytes). -/
theorem add_padding_slice_in_bounds (pos k : Nat) (hk : k ≤ 3) :
    padding_for_n_bytes pos (2 ^ k) < 8 ∧
    (addPaddingBytes pos (2 ^ k)).length = padding_for_n_bytes pos (2 ^ k) := by
  have hpos : 0 < 2 ^ k := Nat.pos_pow_of_pos k (by norm_num)
  have h1 : padding_for_n_bytes pos (2 ^ k) < 2 ^ k := by
    unfold padding_for_n_bytes
    exact Nat.mod_lt _ hpos
  have h8 : 2 ^ k ≤ 8 := by
    calc 2 ^ k ≤ 2 ^ 3 := Nat.pow_le_pow_right (by norm_num) hk
    _ = 8 := by norm_num
  refine ⟨by omega, ?_⟩
  unfold addPaddingBytes
  rw [List.length_take, List.length_replicate]
  omega

/-- C10 witness at position 5, alignment 8. -/
theorem add_padding_slice_in_bounds_witness :
    padding_for_n_bytes 5 (2 ^ 3) < 8 ∧
    (addPaddingBytes 5 (2 ^ 3)).length = padding_for_n_bytes 5 (2 ^ 3) :=
  add_padding_slice_in_bounds 5 3 (by decide)

/-! ### Digit arithmetic lemmas (towards C9 and C1) -/

theorem natDigitsAux_val (b : Nat) (hb : 2 ≤ b) :
    ∀ fuel n, n ≤ fuel →
      (natDigitsAux b fuel n).foldr (fun d acc => acc * b + d) 0 = n := by
  intro fuel
  induction fuel with
  | zero =>
    intro n hn
    have : n = 0 := Nat.le_zero.mp hn
    subst this
    rfl
  | succ fuel ih =>
    intro n hn
    by_cases h0 : n = 0
    · subst h0; simp [natDigitsAux]
    · have hlt : n / b < n := Nat.div_lt_self (Nat.pos_of_ne_zero h0) hb
      have hdiv : n / b ≤ fuel := by omega
      simp only [natDigitsAux, h0, if_false, List.foldr_cons]
      rw [ih (n / b) hdiv, Nat.mul_comm]
      exact Nat.div_add_mod n b

theorem natDigitsAux_lt (b : Nat) (hb : 0 < b) :
    ∀ fuel n d, d ∈ natDigitsAux b fuel n → d < b := by
  intro fuel
  induction fuel with
  | zero => intro n d hd; simp [natDigitsAux] at hd
  | succ fuel ih =>
    intro n d hd
    by_cases h0 : n = 0
    · subst h0; simp [natDigitsAux] at hd
    · simp only [natDigitsAux, h0, if_false, List.mem_cons] at hd
      rcases hd with h | h
      · subst h; exact Nat.mod_lt _ hb
      · exact ih _ _ h

theorem natDigitsAux_len (b : Nat) (hb : 2 ≤ b) :
    ∀ fuel n k, n ≤ fuel → n < b ^ k →
      (natDigitsAux b fuel n).length ≤ k := by
  intro fuel
  induction fuel with
  | zero =>
    intro n k hn _
    have : n = 0 := Nat.le_zero.mp hn
    subst this
    simp [natDigitsAux]
  | succ fuel ih =>
    intro n k hn hk
    by_cases h0 : n = 0
    · subst h0; simp [natDigitsAux]
    · cases k with
      | zero =>
        simp only [pow_zero, Nat.lt_one_iff] at hk
        exact absurd hk h0
      | succ k =>
        have hlt : n / b < n := Nat.div_lt_self (Nat.pos_of_ne_zero h0) hb
        have hdiv : n / b ≤ fuel := by omega
        have hpow : n / b < b ^ k := by
          rw [Nat.div_lt_iff_lt_mul (by omega : 0 < b)]
          calc n < b ^ (k + 1) := hk
          _ = b ^ k * b := by rw [pow_succ]
        simp only [natDigitsAux, h0, if_false, List.length_cons]
        exact Nat.succ_le_succ (ih (n / b) k hdiv hpow)

theorem natDigitsAux_ne_nil (b : Nat) :
    ∀ fuel n, n ≠ 0 → n ≤ fuel → natDigitsAux b fuel n ≠ [] := by
  intro fuel n h0 hn
  cases fuel with
  | zero => omega
  | succ fuel => simp [natDigitsAux, h0]

/-- Every character of the decimal representation is `decChar d` for a
digit `d < 10`. -/
theorem natToDecimal_chars (n : Nat) :
    ∀ c ∈ natToDecimal n, ∃ d, d < 10 ∧ c = decChar d := by
  intro c hc
  unfold natToDecimal at hc
  by_cases h0 : n = 0
  · simp [h0] at hc
    exact ⟨0, by omega, hc⟩
  · simp only [h0, if_false, List.mem_reverse, List.mem_map] at hc
    obtain ⟨d, hd, rfl⟩ := hc
    exact ⟨d, natDigitsAux_lt 10 (by omega) n n d hd, rfl⟩

theorem natToDecimal_ne_nil (n : Nat) : natToDecimal n ≠ [] := by
  unfold natToDecimal
  by_cases h0 : n = 0
  · simp [h0]
  · simp only [h0, if_false, ne_eq, List.reverse_eq_nil_iff, List.map_eq_nil_iff]
    exact natDigitsAux_ne_nil 10 n n h0 (Nat.le_refl n)

theorem natToDecimal_len (n : Nat) (hn : n < 4294967296) :
    (natToDecimal n).length ≤ 10 := by
  unfold natToDecimal
  by_cases h0 : n = 0
  · simp [h0]
  · simp only [h0, if_false, List.length_reverse, List.length_map]
    exact natDigitsAux_len 10 (by omega) n n 10 (Nat.le_refl n) (by norm_num; omega)

theorem decDigitVal_decChar (d : Nat) (hd : d < 10) :
    decDigitVal (decChar d) = some d := by
  interval_cases d <;> decide

theorem decChar_toNat (d : Nat) (hd : d < 10) : (decChar d).toNat = 48 + d := by
  interval_cases d <;> decide

/-- Decimal digit characters all decode, elementwise. -/
theorem mapM_decDigitVal_map (l : List Nat) (hall : ∀ d ∈ l, d < 10) :
    (l.map decChar).mapM decDigitVal = some l := by
  induction l with
  | nil => rfl
  | cons d rest ih =>
    have hd := hall d (List.mem_cons_self d rest)
    simp only [List.map_cons, List.mapM_cons, decDigitVal_decChar d hd,
      ih (fun x hx => hall x (List.mem_cons_of_mem d hx))]
    rfl

/-- `parseU32` on a non-empty digit-character string computes the usual
left fold of its digits. -/
theorem parseU32_digits (l : List Nat) (hne : l ≠ []) (hall : ∀ d ∈ l, d < 10)
    (hb : l.foldl (fun a d => a * 10 + d) 0 < 4294967296) :
    parseU32 (l.map decChar) = some (l.foldl (fun a d => a * 10 + d) 0) := by
  obtain ⟨d, rest, rfl⟩ : ∃ d rest, l = d :: rest := by
    cases l with
    | nil => exact absurd rfl hne
    | cons d rest => exact ⟨d, rest, rfl⟩
  have hd := hall d (List.mem_cons_self d rest)
  have h43 : ¬ (decChar d).toNat = 43 := by rw [decChar_toNat d hd]; omega
  have hmapM := mapM_decDigitVal_map (d :: rest) hall
  rw [List.map_cons] at hmapM
  unfold parseU32
  simp only [List.map_cons, h43, if_false, hmapM, List.isEmpty_cons, hb, if_true]
  rfl

/-- `parseU32` inverts the decimal printer for every `u32`. -/
theorem parseU32_natToDecimal (n : Nat) (hn : n < 4294967296) :
    parseU32 (natToDecimal n) = some n := by
  by_cases h0 : n = 0
  · subst h0; decide
  · have hdigits : ∀ d ∈ natDigits 10 n, d < 10 :=
      fun d hd => natDigitsAux_lt 10 (by omega) n n d hd
    have hne : natDigits 10 n ≠ [] := natDigitsAux_ne_nil 10 n n h0 (Nat.le_refl n)
    have hfold :
        ((natDigits 10 n).reverse).foldl (fun a d => a * 10 + d) 0 = n := by
      rw [List.foldl_reverse]
      exact natDigitsAux_val 10 (by omega) n n (Nat.le_refl n)
    unfold natToDecimal
    simp only [h0, if_false]
    rw [← List.map_reverse]
    rw [parseU32_digits ((natDigits 10 n).reverse)
      (by simpa using hne) (by simpa using hdigits) (by rw [hfold]; exact hn)]
    rw [hfold]

/-- For each decimal digit character: its `{:x}` encoding is two characters
long and decodes back to the character through the hex-chunk path of
`id_from_str`. -/
theorem hexPair_roundtrip (d : Nat) (hd : d < 10) :
    (parseHexU8 (natToHex (decChar d).toNat)).map Char.ofNat = some (decChar d) ∧
    (natToHex (decChar d).toNat).length = 2 := by
  interval_cases d <;> exact ⟨by decide, by decide⟩

/-- `chunks(2)` recovers the pieces of a concatenation of 2-byte pieces. -/
theorem chunks2_flatMap (l : List Char) (f : Char → List Char)
    (h2 : ∀ x ∈ l, (f x).length = 2) :
    chunks2 (l.flatMap f) = l.map f := by
  induction l with
  | nil => rfl
  | cons x rest ih =>
    have hx := h2 x (List.mem_cons_self x rest)
    obtain ⟨a, b, hab⟩ : ∃ a b, f x = [a, b] := by
      cases hfx : f x with
      | nil => rw [hfx] at hx; simp at hx
      | cons a t =>
        cases t with
        | nil => rw [hfx] at hx; simp at hx
        | cons b t2 =>
          cases t2 with
          | nil => exact ⟨a, b, rfl⟩
          | cons c t3 => rw [hfx] at hx; simp at hx
    rw [List.flatMap_cons, hab, List.map_cons, hab]
    show chunks2 (a :: b :: rest.flatMap f) = [a, b] :: rest.map f
    rw [chunks2]
    exact congrArg _ (ih (fun y hy => h2 y (List.mem_cons_of_mem x hy)))

/-- Elementwise decoding of mapped chunks. -/
theorem mapM_chunks_of_pointwise (l : List Char) (f : Char → List Char)
    (g : List Char → Option Char) (h : ∀ c ∈ l, g (f c) = some c) :
    (l.map f).mapM g = some l := by
  induction l with
  | nil => rfl
  | cons x rest ih =>
    simp only [List.map_cons, List.mapM_cons, h x (List.mem_cons_self x rest),
      ih (fun c hc => h c (List.mem_cons_of_mem x hc))]
    rfl

/-- A failing element makes the whole `mapM` fail. -/
theorem mapM_none_of_mem (l : List (List Char)) (g : List Char → Option Char)
    (h : ∃ x ∈ l, g x = none) : l.mapM g = none := by
  induction l with
  | nil => obtain ⟨x, hx, _⟩ := h; simp at hx
  | cons y rest ih =>
    obtain ⟨x, hx, hgx⟩ := h
    rcases List.mem_cons.mp hx with rfl | hmem
    · simp only [List.mapM_cons, hgx]; rfl
    · simp only [List.mapM_cons, ih ⟨x, hmem, hgx⟩]
      cases hgy : g y <;> rfl

/-- The hex string built by the client's `Init` step decodes back to the
UID (shared helper for C9 and C1). -/
theorem id_from_str_uidHex (uid : Nat) (h : uid < 4294967296) :
    id_from_str (uidHexChars uid) = some uid := by
  have hchars := natToDecimal_chars uid
  have h2 : ∀ c ∈ natToDecimal uid, (natToHex c.toNat).length = 2 := by
    intro c hc
    obtain ⟨d, hd, rfl⟩ := hchars c hc
    exact (hexPair_roundtrip d hd).2
  unfold id_from_str uidHexChars
  rw [chunks2_flatMap _ _ h2,
    mapM_chunks_of_pointwise _ _ _ (fun c hc => by
      obtain ⟨d, hd, rfl⟩ := hchars c hc
      exact (hexPair_roundtrip d hd).1)]
  exact parseU32_natToDecimal uid h

/-! ### Claim C9 -/

/-- C9: decoding with `id_from_str` the hex string the client builds in its
`Init` step returns the original `u32` UID; and `id_from_str` fails on a
chunk that is not valid hex, and on hex input whose decoded characters do
not parse as a decimal `u32`. -/
theorem id_from_str_roundtrip_and_failure :
    (∀ uid, uid < 4294967296 → id_from_str (uidHexChars uid) = some uid) ∧
    (∀ s, (∃ ch ∈ chunks2 s, parseHexU8 ch = none) → id_from_str s = none) ∧
    (∀ s cs, (chunks2 s).mapM (fun ch => (parseHexU8 ch).map Char.ofNat) = some cs →
      parseU32 cs = none → id_from_str s = none) := by
  refine ⟨id_from_str_uidHex, ?_, ?_⟩
  · intro s ⟨ch, hmem, hch⟩
    unfold id_from_str
    rw [mapM_none_of_mem _ _ ⟨ch, hmem, by rw [hch]; rfl⟩]
  · intro s cs hmap hparse
    unfold id_from_str
    rw [hmap]
    exact hparse

/-- C9 witness: round trip at uid 1000; `"zz"` is malformed hex; `"3a"`
decodes to the non-decimal string `":"`. -/
theorem id_from_str_roundtrip_and_failure_witness :
    id_from_str (uidHexChars 1000) = some 1000 ∧
    id_from_str (strL "zz") = none ∧
    id_from_str (strL "3a") = none :=
  ⟨id_from_str_roundtrip_and_failure.1 1000 (by decide),
   id_from_str_roundtrip_and_failure.2.1 (strL "zz")
     ⟨strL "zz", by decide, by decide⟩,
   id_from_str_roundtrip_and_failure.2.2 (strL "3a") [Char.ofNat 58]
     (by decide) (by decide)⟩

/-! ### Character-class facts -/

/-- A line body is "plain" when it contains neither CR nor LF; every
protocol line body in the handshake is plain. -/
abbrev PlainBody (body : List Char) : Prop :=
  ∀ c ∈ body, c.toNat ≠ 13 ∧ c.toNat ≠ 10

theorem natToHex_decChar_facts (d : Nat) (hd : d < 10) :
    ∀ c ∈ natToHex (decChar d).toNat,
      (c.toNat ≠ 13 ∧ c.toNat ≠ 10) ∧ isWsChar c = false := by
  interval_cases d <;> decide

theorem uidHex_plain (uid : Nat) : PlainBody (uidHexChars uid) := by
  intro c hc
  unfold uidHexChars at hc
  obtain ⟨x, hx, hcx⟩ := List.mem_flatMap.mp hc
  obtain ⟨d, hd, rfl⟩ := natToDecimal_chars uid x hx
  exact (natToHex_decChar_facts d hd c hcx).1

theorem uidHex_no_ws (uid : Nat) : ∀ c ∈ uidHexChars uid, isWsChar c = false := by
  intro c hc
  unfold uidHexChars at hc
  obtain ⟨x, hx, hcx⟩ := List.mem_flatMap.mp hc
  obtain ⟨d, hd, rfl⟩ := natToDecimal_chars uid x hx
  exact (natToHex_decChar_facts d hd c hcx).2

theorem uidHex_ne_nil (uid : Nat) : uidHexChars uid ≠ [] := by
  unfold uidHexChars
  obtain ⟨c, rest, hcr⟩ : ∃ c rest, natToDecimal uid = c :: rest := by
    cases hnd : natToDecimal uid with
    | nil => exact absurd hnd (natToDecimal_ne_nil uid)
    | cons c rest => exact ⟨c, rest, rfl⟩
  rw [hcr, List.flatMap_cons]
  obtain ⟨d, hd, rfl⟩ := natToDecimal_chars uid c (by rw [hcr]; exact List.mem_cons_self c rest)
  have h2 := (hexPair_roundtrip d hd).2
  intro hcontra
  rw [List.append_eq_nil] at hcontra
  rw [hcontra.1] at h2
  simp at h2

theorem guid_val_facts (g : Guid) :
    g.val.length = 32 ∧
    (∀ c ∈ g.val, (c.toNat ≠ 13 ∧ c.toNat ≠ 10) ∧ isWsChar c = false) := by
  have hg := g.property
  unfold validGuid at hg
  rw [Bool.and_eq_true] at hg
  obtain ⟨hlen, hall⟩ := hg
  refine ⟨by simpa using hlen, ?_⟩
  intro c hc
  have := List.all_eq_true.mp hall c hc
  rw [Bool.or_eq_true, Bool.and_eq_true, Bool.and_eq_true] at this
  rcases this with ⟨h1, h2⟩ | ⟨h1, h2⟩ <;>
    [skip; skip] <;>
  · simp only [decide_eq_true_eq] at h1 h2
    refine ⟨⟨by omega, by omega⟩, ?_⟩
    unfold isWsChar
    simp only [Bool.or_eq_false_iff, beq_eq_false_iff_ne, ne_eq]
    omega

theorem guid_val_ne_nil (g : Guid) : g.val ≠ [] := by
  have := (guid_val_facts g).1
  intro hc
  rw [hc] at this
  simp at this

/-! ### `split_whitespace` lemmas -/

theorem splitWhitespaceAux_token (t : List Char)
    (ht : ∀ c ∈ t, isWsChar c = false) :
    ∀ (r acc : List Char),
      splitWhitespaceAux (t ++ r) acc = splitWhitespaceAux r (t.reverse ++ acc) := by
  induction t with
  | nil => intro r acc; simp
  | cons c t ih =>
    intro r acc
    have hc := ht c (List.mem_cons_self c t)
    rw [List.cons_append]
    rw [show splitWhitespaceAux (c :: (t ++ r)) acc =
        splitWhitespaceAux (t ++ r) (c :: acc) from by
      rw [splitWhitespaceAux.eq_def]
      simp [hc]]
    rw [ih (fun x hx => ht x (List.mem_cons_of_mem c hx)) r (c :: acc)]
    simp [List.append_assoc]

theorem isWs_crC : isWsChar crC = true := by decide
theorem isWs_lfC : isWsChar lfC = true := by decide
theorem isWs_space : isWsChar (Char.ofNat 32) = true := by decide

theorem splitWhitespaceAux_crlf (acc : List Char) :
    splitWhitespaceAux crlf acc = if acc.isEmpty then [] else [acc.reverse] := by
  show splitWhitespaceAux (crC :: [lfC]) acc = _
  unfold splitWhitespaceAux
  rw [isWs_crC]
  cases acc with
  | nil =>
    simp only [List.isEmpty_nil, if_true]
    unfold splitWhitespaceAux
    rw [isWs_lfC]
    simp [splitWhitespaceAux]
  | cons a rest =>
    simp only [List.isEmpty_cons, if_true]
    unfold splitWhitespaceAux
    rw [isWs_lfC]
    simp [splitWhitespaceAux]

/-- Emitting a finished token at a whitespace character. -/
theorem splitWhitespaceAux_ws_emit (c : Char) (r acc : List Char)
    (hc : isWsChar c = true) (hacc : acc ≠ []) :
    splitWhitespaceAux (c :: r) acc = acc.reverse :: splitWhitespaceAux r [] := by
  rw [splitWhitespaceAux.eq_def]
  simp [hc, List.isEmpty_iff, hacc]

/-- A single non-whitespace token followed by CRLF splits to itself. -/
theorem splitWhitespace_token_crlf (t : List Char) (hne : t ≠ [])
    (ht : ∀ c ∈ t, isWsChar c = false) :
    splitWhitespace (t ++ crlf) = [t] := by
  unfold splitWhitespace
  rw [splitWhitespaceAux_token t ht crlf [], splitWhitespaceAux_crlf]
  simp [List.isEmpty_iff, hne]

/-- `<t1> <t2>\r\n` splits to the two tokens. -/
theorem splitWhitespace_tokens2 (t1 t2 : List Char)
    (h1ne : t1 ≠ []) (h1 : ∀ c ∈ t1, isWsChar c = false)
    (h2ne : t2 ≠ []) (h2 : ∀ c ∈ t2, isWsChar c = false) :
    splitWhitespace (t1 ++ (Char.ofNat 32 :: (t2 ++ crlf))) = [t1, t2] := by
  unfold splitWhitespace
  rw [splitWhitespaceAux_token t1 h1, List.append_nil,
    splitWhitespaceAux_ws_emit _ _ _ isWs_space (by simp [h1ne]),
    splitWhitespaceAux_token t2 h2, List.append_nil, splitWhitespaceAux_crlf]
  simp [List.isEmpty_iff, h2ne]

/-- `<t1> <t2> <t3>\r\n` splits to the three tokens. -/
theorem splitWhitespace_tokens3 (t1 t2 t3 : List Char)
    (h1ne : t1 ≠ []) (h1 : ∀ c ∈ t1, isWsChar c = false)
    (h2ne : t2 ≠ []) (h2 : ∀ c ∈ t2, isWsChar c = false)
    (h3ne : t3 ≠ []) (h3 : ∀ c ∈ t3, isWsChar c = false) :
    splitWhitespace
      (t1 ++ (Char.ofNat 32 :: (t2 ++ (Char.ofNat 32 :: (t3 ++ crlf))))) =
      [t1, t2, t3] := by
  unfold splitWhitespace
  rw [splitWhitespaceAux_token t1 h1, List.append_nil,
    splitWhitespaceAux_ws_emit _ _ _ isWs_space (by simp [h1ne]),
    splitWhitespaceAux_token t2 h2, List.append_nil,
    splitWhitespaceAux_ws_emit _ _ _ isWs_space (by simp [h2ne]),
    splitWhitespaceAux_token t3 h3, List.append_nil, splitWhitespaceAux_crlf]
  simp [List.isEmpty_iff, h3ne]

/-- `OK <tok>\r\n` splits to the two tokens. -/
theorem splitWhitespace_ok_guid (t : List Char) (hne : t ≠ [])
    (ht : ∀ c ∈ t, isWsChar c = false) :
    splitWhitespace (strL "OK " ++ t ++ crlf) = [strL "OK", t] := by
  show splitWhitespace (strL "OK" ++ (Char.ofNat 32 :: (t ++ crlf))) = _
  exact splitWhitespace_tokens2 (strL "OK") t (by decide) (by decide) hne ht

/-- `AUTH EXTERNAL <tok>\r\n` splits to the three tokens. -/
theorem splitWhitespace_auth_external (t : List Char) (hne : t ≠ [])
    (ht : ∀ c ∈ t, isWsChar c = false) :
    splitWhitespace (strL "AUTH EXTERNAL " ++ t ++ crlf) =
      [strL "AUTH", strL "EXTERNAL", t] := by
  show splitWhitespace
    (strL "AUTH" ++ (Char.ofNat 32 ::
      (strL "EXTERNAL" ++ (Char.ofNat 32 :: (t ++ crlf))))) = _
  exact splitWhitespace_tokens3 (strL "AUTH") (strL "EXTERNAL") t
    (by decide) (by decide) (by decide) (by decide) hne ht

/-! ### `read_line` and the `read_command` loop -/

/-- `read_line` takes a whole single line. -/
theorem readLine_plain (body : List Char) (hb : PlainBody body) :
    readLine (body ++ crlf) = body ++ crlf := by
  induction body with
  | nil => rfl
  | cons c rest ih =>
    have hc := (hb c (List.mem_cons_self c rest)).2
    rw [List.cons_append, readLine, if_neg hc,
      ih (fun x hx => hb x (List.mem_cons_of_mem c hx))]

/-- A proper prefix of a single plain line never ends in CRLF, so the
`read_command` loop keeps reading. -/
theorem crlf_not_suffix_of_proper (body p q : List Char) (hb : PlainBody body)
    (heq : body ++ crlf = p ++ q) (hq : q ≠ []) :
    crlf.isSuffixOf p = false := by
  cases hsuf : crlf.isSuffixOf p
  · rfl
  · exfalso
    have hsx : crlf <:+ p := (List.isSuffixOf_iff_suffix).mp hsuf
    obtain ⟨r, hr⟩ := hsx
    -- `p` contains a line feed
    have hlf : lfC ∈ p := by
      rw [← hr]
      simp [crlf]
    have hlen : p.length + q.length = body.length + 2 := by
      have := congrArg List.length heq
      simp [crlf] at this
      omega
    have hql : 1 ≤ q.length := by
      cases q with
      | nil => exact absurd rfl hq
      | cons _ _ => simp
    by_cases hple : p.length ≤ body.length
    · -- p is a prefix of body: the line feed would be inside the body
      have hpfx : p = body.take p.length := by
        have h1 : body = body.take p.length ++ body.drop p.length :=
          (List.take_append_drop p.length body).symm
        have h2 : p ++ q = body.take p.length ++ (body.drop p.length ++ crlf) := by
          rw [← List.append_assoc, ← h1, heq]
        have := List.append_inj h2 (by
          rw [List.length_take]
          omega)
        exact this.1
      have : lfC ∈ body := List.take_subset _ _ (hpfx ▸ hlf)
      exact (hb lfC this).2 rfl
    · -- p extends exactly one byte past the body: it ends in CR, not LF
      have hpl : p.length = body.length + 1 := by omega
      have hq1 : q.length = 1 := by omega
      have hbody : p = body ++ [crC] := by
        obtain ⟨x, hx⟩ : ∃ x, q = [x] := by
          cases q with
          | nil => exact absurd rfl hq
          | cons a t =>
            cases t with
            | nil => exact ⟨a, rfl⟩
            | cons b t2 => simp at hq1
        have h2 : (body ++ [crC]) ++ [lfC] = p ++ [x] := by
          rw [← hx, ← heq]
          simp [crlf]
        have := List.append_inj h2 (by simp; omega)
        exact this.1.symm
      have hlast1 : p.getLast? = some lfC := by
        rw [← hr]
        rw [List.getLast?_append]
        · rfl
      have hlast2 : p.getLast? = some crC := by
        rw [hbody]
        rw [List.getLast?_append]
        · rfl
      rw [hlast1] at hlast2
      have : lfC = crC := Option.some.inj hlast2
      have h1310 : (10 : Nat) = 13 := by
        have h2 := congrArg Char.toNat this
        simp [lfC, crC] at h2
      omega

/-- The line literally ends in CRLF. -/
theorem crlf_suffix_line (body : List Char) :
    crlf.isSuffixOf (body ++ crlf) = true :=
  (List.isSuffixOf_iff_suffix).mpr ⟨body, rfl⟩

/-- The `read_command` loop on a socket holding exactly one full plain line
reads the whole line (fuel `rx.length + 1` always suffices). -/
theorem readLoopF_single_line (body : List Char) (hb : PlainBody body) :
    ∀ (fuel : Nat) (p q tx : List Char),
      body ++ crlf = p ++ q → q.length + 1 ≤ fuel →
      readLoopF fuel ⟨q, tx⟩ p = (.ok, body ++ crlf, ⟨[], tx⟩) := by
  intro fuel
  induction fuel with
  | zero => intro p q tx heq hf; omega
  | succ fuel ih =>
    intro p q tx heq hf
    by_cases hq : q = []
    · subst hq
      rw [List.append_nil] at heq
      subst heq
      simp only [readLoopF, crlf_suffix_line, if_true]
    · rw [show readLoopF (fuel + 1) ⟨q, tx⟩ p =
          if crlf.isSuffixOf p then (.ok, p, ⟨q, tx⟩)
          else match recvmsg 40 ⟨q, tx⟩ with
            | none => (.wouldBlock, p, ⟨q, tx⟩)
            | some (bs, sock') => readLoopF fuel sock' (p ++ bs) from rfl]
      rw [crlf_not_suffix_of_proper body p q hb heq hq]
      simp only [Bool.false_eq_true, if_false]
      rw [show recvmsg 40 ⟨q, tx⟩ =
          some (q.take 40, ⟨q.drop 40, tx⟩) from by
        simp [recvmsg, List.isEmpty_iff, hq]]
      have heq' : body ++ crlf = (p ++ q.take 40) ++ q.drop 40 := by
        rw [List.append_assoc, List.take_append_drop]
        exact heq
      have hlen : (q.drop 40).length + 1 ≤ fuel := by
        have h1 : 1 ≤ q.length := by
          cases q with
          | nil => exact absurd rfl hq
          | cons _ _ => simp
        rw [List.length_drop]
        omega
      exact ih (p ++ q.take 40) (q.drop 40) tx heq' hlen

/-- The exact call shape of `read_command` on a one-line socket. -/
theorem readLoopF_line (body tx : List Char) (hb : PlainBody body) :
    readLoopF ((body ++ crlf).length + 1) ⟨body ++ crlf, tx⟩ [] =
      (.ok, body ++ crlf, ⟨[], tx⟩) :=
  readLoopF_single_line body hb _ [] (body ++ crlf) tx rfl (Nat.le_refl _)

/-- The `read_command` loop on an empty socket reports would-block at
once. -/
theorem readLoopF_empty (fuel : Nat) (tx : List Char) :
    readLoopF (fuel + 1) ⟨[], tx⟩ [] = (.wouldBlock, [], ⟨[], tx⟩) := by
  simp [readLoopF, recvmsg, crlf]

/-! ### Flush lemmas -/

theorem client_flush_eq (h : ClientHandshake) :
    h.flushBuffer =
      { h with socket := ⟨h.socket.rx, h.socket.tx ++ h.sendBuffer⟩,
               sendBuffer := [] } := by
  unfold ClientHandshake.flushBuffer sendmsg
  by_cases hs : h.sendBuffer.isEmpty
  · rw [if_pos hs]
    have : h.sendBuffer = [] := List.isEmpty_iff.mp hs
    cases h with
    | mk sock recv send step g cap uid =>
      cases sock
      simp_all
  · rw [if_neg hs]
    simp

theorem server_flush_eq (h : ServerHandshake) :
    h.flushBuffer =
      { h with socket := ⟨h.socket.rx, h.socket.tx ++ h.buffer⟩,
               buffer := [] } := by
  unfold ServerHandshake.flushBuffer sendmsg
  by_cases hs : h.buffer.isEmpty
  · rw [if_pos hs]
    have : h.buffer = [] := List.isEmpty_iff.mp hs
    cases h with
    | mk sock buf step g cap uid =>
      cases sock
      simp_all
  · rw [if_neg hs]
    simp

/-! ### `read_command` corollaries -/

theorem client_readCommand_line (h : ClientHandshake) (body : List Char)
    (hb : PlainBody body) (hrx : h.socket.rx = body ++ crlf) :
    h.readCommand =
      (.ok, { h with recvBuffer := body ++ crlf,
                     socket := ⟨[], h.socket.tx⟩ }) := by
  have hsock : h.socket = ⟨body ++ crlf, h.socket.tx⟩ := by
    cases hs : h.socket with
    | mk r t => rw [hs] at hrx; simp_all
  unfold ClientHandshake.readCommand
  rw [hsock, readLoopF_line body h.socket.tx hb]

theorem client_readCommand_empty (h : ClientHandshake)
    (hrx : h.socket.rx = []) :
    h.readCommand =
      (.wouldBlock, { h with recvBuffer := [],
                             socket := ⟨[], h.socket.tx⟩ }) := by
  have hsock : h.socket = ⟨[], h.socket.tx⟩ := by
    cases hs : h.socket with
    | mk r t => rw [hs] at hrx; simp_all
  unfold ClientHandshake.readCommand
  rw [hsock]
  rw [show ([] : List Char).length + 1 = 0 + 1 from rfl, readLoopF_empty]

theorem server_readCommand_line (h : ServerHandshake) (body : List Char)
    (hb : PlainBody body) (hbuf : h.buffer = [])
    (hrx : h.socket.rx = body ++ crlf) :
    h.readCommand =
      (.ok, { h with buffer := body ++ crlf,
                     socket := ⟨[], h.socket.tx⟩ }) := by
  have hsock : h.socket = ⟨body ++ crlf, h.socket.tx⟩ := by
    cases hs : h.socket with
    | mk r t => rw [hs] at hrx; simp_all
  unfold ServerHandshake.readCommand
  rw [hsock, hbuf, readLoopF_line body h.socket.tx hb]

theorem server_readCommand_empty (h : ServerHandshake)
    (hbuf : h.buffer = []) (hrx : h.socket.rx = []) :
    h.readCommand =
      (.wouldBlock, { h with buffer := [],
                             socket := ⟨[], h.socket.tx⟩ }) := by
  have hsock : h.socket = ⟨[], h.socket.tx⟩ := by
    cases hs : h.socket with
    | mk r t => rw [hs] at hrx; simp_all
  unfold ServerHandshake.readCommand
  rw [hsock, hbuf]
  rw [show ([] : List Char).length + 1 = 0 + 1 from rfl, readLoopF_empty]

/-- Constructor-form restatements of the `read_command` corollaries (the
general forms specialised to literal states, with all projections
reduced). -/
theorem client_readCommand_line2 (body tx recvB sendB : List Char)
    (hb : PlainBody body) (st : ClientStep) (sg : Option Guid) (cap : Bool)
    (uid : Nat) :
    ClientHandshake.readCommand ⟨⟨body ++ crlf, tx⟩, recvB, sendB, st, sg, cap, uid⟩ =
      (.ok, ⟨⟨[], tx⟩, body ++ crlf, sendB, st, sg, cap, uid⟩) :=
  client_readCommand_line ⟨⟨body ++ crlf, tx⟩, recvB, sendB, st, sg, cap, uid⟩
    body hb rfl

theorem client_readCommand_empty2 (tx recvB sendB : List Char)
    (st : ClientStep) (sg : Option Guid) (cap : Bool) (uid : Nat) :
    ClientHandshake.readCommand ⟨⟨[], tx⟩, recvB, sendB, st, sg, cap, uid⟩ =
      (.wouldBlock, ⟨⟨[], tx⟩, [], sendB, st, sg, cap, uid⟩) :=
  client_readCommand_empty ⟨⟨[], tx⟩, recvB, sendB, st, sg, cap, uid⟩ rfl

theorem server_readCommand_line2 (body tx : List Char) (hb : PlainBody body)
    (st : ServerStep) (g : Guid) (cap : Bool) (cuid : Nat) :
    ServerHandshake.readCommand ⟨⟨body ++ crlf, tx⟩, [], st, g, cap, cuid⟩ =
      (.ok, ⟨⟨[], tx⟩, body ++ crlf, st, g, cap, cuid⟩) :=
  server_readCommand_line ⟨⟨body ++ crlf, tx⟩, [], st, g, cap, cuid⟩
    body hb rfl rfl

theorem server_readCommand_empty2 (tx : List Char) (st : ServerStep)
    (g : Guid) (cap : Bool) (cuid : Nat) :
    ServerHandshake.readCommand ⟨⟨[], tx⟩, [], st, g, cap, cuid⟩ =
      (.wouldBlock, ⟨⟨[], tx⟩, [], st, g, cap, cuid⟩) :=
  server_readCommand_empty ⟨⟨[], tx⟩, [], st, g, cap, cuid⟩ rfl rfl

/-! ### Claim C8 -/

/-- C8: in the client's fd-negotiation wait state, a reply line beginning
with `AGREE_UNIX_FD` sets the fd-passing capability to true, a reply
beginning with `ERROR` sets it to false without failing the handshake, and
any other reply is a fatal handshake error; in the two non-fatal cases the
client queues (and, on the in-memory socket, flushes) `BEGIN` and
transitions to `Done`, where `advance_handshake` returns success. -/
theorem client_fd_negotiation_reply (h : ClientHandshake) (body : List Char)
    (hstep : h.step = .waitNegociateFd) (hsend : h.sendBuffer = [])
    (hrx : h.socket.rx = body ++ crlf) (hb : PlainBody body) :
    ((strL "AGREE_UNIX_FD").isPrefixOf (body ++ crlf) = true →
      clientAdvance h = (.ok,
        { h with socket := ⟨[], h.socket.tx ++ beginLine⟩,
                 recvBuffer := body ++ crlf, sendBuffer := [],
                 step := .done, capUnixFd := true })) ∧
    ((strL "AGREE_UNIX_FD").isPrefixOf (body ++ crlf) = false →
      (strL "ERROR").isPrefixOf (body ++ crlf) = true →
      clientAdvance h = (.ok,
        { h with socket := ⟨[], h.socket.tx ++ beginLine⟩,
                 recvBuffer := body ++ crlf, sendBuffer := [],
                 step := .done, capUnixFd := false })) ∧
    ((strL "AGREE_UNIX_FD").isPrefixOf (body ++ crlf) = false →
      (strL "ERROR").isPrefixOf (body ++ crlf) = false →
      clientAdvance h = (.fatal msgUnexpectedFdReply,
        { h with socket := ⟨[], h.socket.tx⟩,
                 recvBuffer := body ++ crlf, sendBuffer := [] })) := by
  obtain ⟨⟨rx, tx⟩, recvB, sendB, step, sg, cap, uid⟩ := h
  simp only at hstep hsend hrx
  subst hstep hsend hrx
  have hread := client_readCommand_line
    ⟨⟨body ++ crlf, tx⟩, recvB, [], .waitNegociateFd, sg, cap, uid⟩
    body hb rfl
  refine ⟨?_, ?_, ?_⟩
  · intro hA
    unfold clientAdvance
    simp only [clientAdvanceF, client_flush_eq, List.append_nil, hread, hA,
      if_true]
  · intro hA hE
    unfold clientAdvance
    simp only [clientAdvanceF, client_flush_eq, List.append_nil, hread, hA, hE,
      Bool.false_eq_true, if_false, if_true]
  · intro hA hE
    unfold clientAdvance
    simp only [clientAdvanceF, client_flush_eq, List.append_nil, hread, hA, hE,
      Bool.false_eq_true, if_false]

/-- C8 witness: the three reply shapes at concrete states. -/
theorem client_fd_negotiation_reply_witness :
    clientAdvance ⟨⟨strL "AGREE_UNIX_FD" ++ crlf, []⟩, [], [],
        .waitNegociateFd, none, false, 7⟩ =
      (.ok, ⟨⟨[], [] ++ beginLine⟩, strL "AGREE_UNIX_FD" ++ crlf, [],
        .done, none, true, 7⟩) :=
  (client_fd_negotiation_reply _ (strL "AGREE_UNIX_FD") rfl rfl rfl
    (by decide)).1 (by decide)

/-! ### Claims C6 and C7 -/

/-- C6 (amended): in the server's `WaitingForAuth` state, an
`AUTH EXTERNAL` line whose decoded UID differs from the expected peer UID,
and any other `AUTH` or `ERROR` line, queue `REJECTED EXTERNAL` and loop
back to `WaitingForAuth` via `SendingAuthError`; an unrecognized line loops
back the same way but queues `ERROR Unsupported command`; none of these is
fatal.  An `AUTH EXTERNAL` line whose UID token fails hex/decimal decoding
is a fatal handshake error, and so is receiving `BEGIN`. -/
theorem server_auth_line_handling (s : ServerHandshake) (body : List Char)
    (hstep : s.step = .waitingForAuth) (hbuf : s.buffer = [])
    (hrx : s.socket.rx = body ++ crlf) (hb : PlainBody body) :
    (∀ u w, serverAuthDispatch (splitWhitespace (body ++ crlf)) = .authExternal u →
      id_from_str u = some w → w ≠ s.clientUid →
      serverAdvance s = (.wouldBlock,
        { s with socket := ⟨[], s.socket.tx ++ rejectedLine⟩, buffer := [],
                 step := .waitingForAuth })) ∧
    (serverAuthDispatch (splitWhitespace (body ++ crlf)) = .reject →
      serverAdvance s = (.wouldBlock,
        { s with socket := ⟨[], s.socket.tx ++ rejectedLine⟩, buffer := [],
                 step := .waitingForAuth })) ∧
    (serverAuthDispatch (splitWhitespace (body ++ crlf)) = .unsupported →
      serverAdvance s = (.wouldBlock,
        { s with socket := ⟨[], s.socket.tx ++ errUnsupportedLine⟩, buffer := [],
                 step := .waitingForAuth })) ∧
    (∀ u, serverAuthDispatch (splitWhitespace (body ++ crlf)) = .authExternal u →
      id_from_str u = none →
      serverAdvance s = (.fatal msgInvalidUid,
        { s with socket := ⟨[], s.socket.tx⟩, buffer := body ++ crlf })) ∧
    (serverAuthDispatch (splitWhitespace (body ++ crlf)) = .beginEarly →
      serverAdvance s = (.fatal msgBeginNotAuth,
        { s with socket := ⟨[], s.socket.tx⟩, buffer := body ++ crlf })) := by
  obtain ⟨⟨rx, tx⟩, buf, step, g, cap, cuid⟩ := s
  simp only at hstep hbuf hrx
  subst hstep hbuf hrx
  have hread := server_readCommand_line
    ⟨⟨body ++ crlf, tx⟩, [], .waitingForAuth, g, cap, cuid⟩ body hb rfl rfl
  have hline := readLine_plain body hb
  have hreadE := fun t => server_readCommand_empty
    ⟨⟨[], t⟩, [], .waitingForAuth, g, cap, cuid⟩ rfl rfl
  refine ⟨?_, ?_, ?_, ?_, ?_⟩
  · intro u w hdisp hid hne
    unfold serverAdvance
    simp only [serverAdvanceF, hread, hline, hdisp, hid, server_flush_eq,
      if_neg hne, hreadE]
  · intro hdisp
    unfold serverAdvance
    simp only [serverAdvanceF, hread, hline, hdisp, server_flush_eq, hreadE]
  · intro hdisp
    unfold serverAdvance
    simp only [serverAdvanceF, hread, hline, hdisp, server_flush_eq, hreadE]
  · intro u hdisp hid
    unfold serverAdvance
    simp only [serverAdvanceF, hread, hline, hdisp, hid]
  · intro hdisp
    unfold serverAdvance
    simp only [serverAdvanceF, hread, hline, hdisp]

/-- C6 counterexample: the claim as stated is false on the code at two
explicit inputs.  `AUTH EXTERNAL zz` (a malformed hex UID) is a *fatal*
handshake error, not a rejection; and the unrecognized line `HELLO` queues
`ERROR Unsupported command`, not `REJECTED EXTERNAL` (while still looping
back to `WaitingForAuth` without a fatal error). -/
theorem server_auth_line_claim_false :
    (serverAdvance (serverAuthFix (strL "AUTH EXTERNAL zz" ++ crlf))).1 =
      .fatal msgInvalidUid ∧
    ((serverAdvance (serverAuthFix (strL "HELLO" ++ crlf))).2.socket.tx =
      errUnsupportedLine ∧
     errUnsupportedLine ≠ rejectedLine ∧
     (serverAdvance (serverAuthFix (strL "HELLO" ++ crlf))).1 = .wouldBlock ∧
     (serverAdvance (serverAuthFix (strL "HELLO" ++ crlf))).2.step =
       .waitingForAuth) := by
  refine ⟨by decide, by decide, by decide, by decide, by decide⟩

/-- C6 witness for the amended claim: `AUTH blah` (an `AUTH` line that is
not a well-formed `AUTH EXTERNAL <uid>`) queues `REJECTED EXTERNAL` and
loops back to `WaitingForAuth`. -/
theorem server_auth_line_handling_witness :
    serverAdvance (serverAuthFix (strL "AUTH blah" ++ crlf)) =
      (.wouldBlock,
        ⟨⟨[], [] ++ rejectedLine⟩, [], .waitingForAuth, guidA, false, 1000⟩) :=
  (server_auth_line_handling (serverAuthFix (strL "AUTH blah" ++ crlf))
    (strL "AUTH blah") rfl rfl rfl (by decide)).2.1 (by decide)

/-- C7 (amended): in the server's `WaitingForBegin` state, `CANCEL` and
`ERROR` queue `REJECTED EXTERNAL` and transition via `SendingAuthError`,
which flushes and moves the machine to `WaitingForAuth` (re-authentication,
an *earlier* state, not `WaitingForBegin`); an unrecognized line queues
`ERROR Unsupported command` and loops back to `WaitingForBegin` via
`SendingBeginMessage`.  None of these aborts the session (no fatal
error). -/
theorem server_begin_line_handling (s : ServerHandshake) (body : List Char)
    (hstep : s.step = .waitingForBegin) (hbuf : s.buffer = [])
    (hrx : s.socket.rx = body ++ crlf) (hb : PlainBody body) :
    (serverBeginDispatch (splitWhitespace (body ++ crlf)) = .cancel →
      serverAdvance s = (.wouldBlock,
        { s with socket := ⟨[], s.socket.tx ++ rejectedLine⟩, buffer := [],
                 step := .waitingForAuth })) ∧
    (serverBeginDispatch (splitWhitespace (body ++ crlf)) = .errorLine →
      serverAdvance s = (.wouldBlock,
        { s with socket := ⟨[], s.socket.tx ++ rejectedLine⟩, buffer := [],
                 step := .waitingForAuth })) ∧
    (serverBeginDispatch (splitWhitespace (body ++ crlf)) = .unsupported →
      serverAdvance s = (.wouldBlock,
        { s with socket := ⟨[], s.socket.tx ++ errUnsupportedLine⟩,
                 buffer := [], step := .waitingForBegin })) := by
  obtain ⟨⟨rx, tx⟩, buf, step, g, cap, cuid⟩ := s
  simp only at hstep hbuf hrx
  subst hstep hbuf hrx
  have hread := server_readCommand_line
    ⟨⟨body ++ crlf, tx⟩, [], .waitingForBegin, g, cap, cuid⟩ body hb rfl rfl
  have hline := readLine_plain body hb
  have hreadEA := fun t => server_readCommand_empty
    ⟨⟨[], t⟩, [], .waitingForAuth, g, cap, cuid⟩ rfl rfl
  have hreadEB := fun t => server_readCommand_empty
    ⟨⟨[], t⟩, [], .waitingForBegin, g, cap, cuid⟩ rfl rfl
  refine ⟨?_, ?_, ?_⟩
  · intro hdisp
    unfold serverAdvance
    simp only [serverAdvanceF, hread, hline, hdisp, server_flush_eq, hreadEA]
  · intro hdisp
    unfold serverAdvance
    simp only [serverAdvanceF, hread, hline, hdisp, server_flush_eq, hreadEA]
  · intro hdisp
    unfold serverAdvance
    simp only [serverAdvanceF, hread, hline, hdisp, server_flush_eq, hreadEB]

/-- C7 counterexample: after `CANCEL` in `WaitingForBegin`, the machine is
in `WaitingForAuth` — an earlier state — not back in `WaitingForBegin` as
the claim states (the queued line and the non-fatal outcome are as
claimed). -/
theorem server_begin_cancel_claim_false :
    (serverAdvance (serverBeginFix (strL "CANCEL" ++ crlf))).2.step =
      .waitingForAuth ∧
    ServerStep.waitingForAuth ≠ ServerStep.waitingForBegin ∧
    (serverAdvance (serverBeginFix (strL "CANCEL" ++ crlf))).1 = .wouldBlock ∧
    (serverAdvance (serverBeginFix (strL "CANCEL" ++ crlf))).2.socket.tx =
      rejectedLine := by
  refine ⟨by decide, by decide, by decide, by decide⟩

/-- C7 witness for the amended claim: an unrecognized line (`FOO`) queues
`ERROR Unsupported command` and loops back to `WaitingForBegin`. -/
theorem server_begin_line_handling_witness :
    serverAdvance (serverBeginFix (strL "FOO" ++ crlf)) =
      (.wouldBlock,
        ⟨⟨[], [] ++ errUnsupportedLine⟩, [], .waitingForBegin, guidA, false,
          1000⟩) :=
  (server_begin_line_handling (serverBeginFix (strL "FOO" ++ crlf))
    (strL "FOO") rfl rfl rfl (by decide)).2.2 (by decide)

/-! ### Claim C2 -/

/-- C2 (code bug): the claim — and the spec's non-blocking contract — say
that no received bytes are lost across a would-block retry of the same
step.  But `ClientHandshake::read_command` begins with
`self.recv_buffer.clear()` (the source even remarks
`// maybe until \r\n instead?`), so the bytes read before the would-block
are discarded when the caller retries.  Concretely: the server's
`OK <guid>` line arrives split 10 bytes / rest.  The first advance consumes
and buffers the 10 bytes, then reports would-block; the retry clears them,
reads only the tail, and the handshake fails fatally — even though the
concatenated stream was exactly one valid `OK` line.  (The server-side
`read_command` has no such clear and keeps partial data.) -/
theorem client_read_command_loses_partial_data :
    ((clientAdvance c2partial).1 = .wouldBlock ∧
     (clientAdvance c2partial).2.recvBuffer = (okLine guidA).take 10) ∧
    ((clientAdvance c2retry).2.recvBuffer = (okLine guidA).drop 10 ∧
     (clientAdvance c2retry).1 = .fatal msgUnexpectedAuthReply) ∧
    (okLine guidA).take 10 ++ (okLine guidA).drop 10 = okLine guidA := by
  refine ⟨⟨by decide, by decide⟩, ⟨by decide, by decide⟩, by decide⟩

/-! ### Claim C1: the composed handshake -/

theorem plainBody_append (a b : List Char) (ha : PlainBody a)
    (hb : PlainBody b) : PlainBody (a ++ b) := by
  intro c hc
  rcases List.mem_append.mp hc with h | h
  · exact ha c h
  · exact hb c h

theorem guid_tryFrom_val (g : Guid) : Guid.tryFrom g.val = some g := by
  unfold Guid.tryFrom
  rw [dif_pos g.property]
  cases g
  rfl

theorem serverAuthDispatch_authExternal (u : List Char) :
    serverAuthDispatch [strL "AUTH", strL "EXTERNAL", u] = .authExternal u := by
  simp [serverAuthDispatch]

theorem clientOauthGuidTok_ok (t : List Char) :
    clientOauthGuidTok [strL "OK", t] = some t := by
  simp [clientOauthGuidTok]

theorem uidHex_plainBody (uid : Nat) :
    PlainBody (strL "AUTH EXTERNAL " ++ uidHexChars uid) :=
  plainBody_append _ _ (by decide) (uidHex_plain uid)

theorem guid_plainBody (g : Guid) : PlainBody (strL "OK " ++ g.val) :=
  plainBody_append _ _ (by decide) (fun c hc => ((guid_val_facts g).2 c hc).1)

/-- Round 1, client: from `Init`, the client sends the NUL byte and the
`AUTH EXTERNAL <hex-uid>` line and blocks waiting for the reply. -/
theorem handshakePhase1 (uid : Nat) :
    clientAdvance (ClientHandshake.new uid) =
      (.wouldBlock,
        ⟨⟨[], nulC :: authLine uid⟩, [], [], .waitOauth, none, false, uid⟩) := by
  have hreadE := client_readCommand_empty
    ⟨⟨[], nulC :: authLine uid⟩, [], [], .waitOauth, none, false, uid⟩ rfl
  unfold clientAdvance ClientHandshake.new
  simp only [clientAdvanceF, client_flush_eq, List.append_nil, List.nil_append,
    hreadE]

/-- `WaitingForNull` arm: the NUL byte is consumed and the machine moves to
`WaitingForAuth` within the same `advance_handshake` call. -/
theorem serverAdvanceF_nul (fuel : Nat) (rest tx buf : List Char) (g : Guid)
    (cap : Bool) (cuid : Nat) :
    serverAdvanceF (fuel + 1)
      ⟨⟨nulC :: rest, tx⟩, buf, .waitingForNull, g, cap, cuid⟩ =
      serverAdvanceF fuel ⟨⟨rest, tx⟩, buf, .waitingForAuth, g, cap, cuid⟩ := by
  simp [serverAdvanceF, recvmsg, nulC]

/-- `WaitingForAuth` arm, accepting case: a full `AUTH EXTERNAL` line whose
UID decodes to the expected one makes the server queue and flush
`OK <guid>` and block in `WaitingForBegin`. -/
theorem serverAdvanceF_auth_accept (fuel : Nat) (body tx : List Char)
    (hb : PlainBody body) (g : Guid) (cap : Bool) (cuid : Nat) (u : List Char)
    (hdisp : serverAuthDispatch (splitWhitespace (body ++ crlf)) =
      .authExternal u)
    (hid : id_from_str u = some cuid) :
    serverAdvanceF (fuel + 3)
      ⟨⟨body ++ crlf, tx⟩, [], .waitingForAuth, g, cap, cuid⟩ =
      (.wouldBlock,
        ⟨⟨[], tx ++ okLine g⟩, [], .waitingForBegin, g, cap, cuid⟩) := by
  have hread := server_readCommand_line2 body tx hb .waitingForAuth g cap cuid
  have hline := readLine_plain body hb
  have hreadE := server_readCommand_empty2 (tx ++ okLine g) .waitingForBegin
    g cap cuid
  show serverAdvanceF ((fuel + 2) + 1) _ = _
  simp only [serverAdvanceF, hread, hline, hdisp, hid, if_pos rfl,
    server_flush_eq, hreadE, if_true]

/-- `WaitingForBegin` arm, `NEGOTIATE_UNIX_FD` case: the capability is set,
`AGREE_UNIX_FD` is queued and flushed, and the machine loops back to
`WaitingForBegin`. -/
theorem serverAdvanceF_begin_negotiate (fuel : Nat) (body tx : List Char)
    (hb : PlainBody body) (g : Guid) (cap : Bool) (cuid : Nat)
    (hdisp : serverBeginDispatch (splitWhitespace (body ++ crlf)) =
      .negotiate) :
    serverAdvanceF (fuel + 3)
      ⟨⟨body ++ crlf, tx⟩, [], .waitingForBegin, g, cap, cuid⟩ =
      (.wouldBlock,
        ⟨⟨[], tx ++ agreeLine⟩, [], .waitingForBegin, g, true, cuid⟩) := by
  have hread := server_readCommand_line2 body tx hb .waitingForBegin g cap cuid
  have hline := readLine_plain body hb
  have hreadE := server_readCommand_empty2 (tx ++ agreeLine) .waitingForBegin
    g true cuid
  show serverAdvanceF ((fuel + 2) + 1) _ = _
  simp only [serverAdvanceF, hread, hline, hdisp, server_flush_eq, hreadE]

/-- `WaitingForBegin` arm, `BEGIN` case: the machine reaches `Done` and the
call returns success. -/
theorem serverAdvanceF_begin_done (fuel : Nat) (body tx : List Char)
    (hb : PlainBody body) (g : Guid) (cap : Bool) (cuid : Nat)
    (hdisp : serverBeginDispatch (splitWhitespace (body ++ crlf)) = .beginOk) :
    serverAdvanceF (fuel + 2)
      ⟨⟨body ++ crlf, tx⟩, [], .waitingForBegin, g, cap, cuid⟩ =
      (.ok, ⟨⟨[], tx⟩, body ++ crlf, .done, g, cap, cuid⟩) := by
  have hread := server_readCommand_line2 body tx hb .waitingForBegin g cap cuid
  have hline := readLine_plain body hb
  show serverAdvanceF ((fuel + 1) + 1) _ = _
  simp only [serverAdvanceF, hread, hline, hdisp]

/-- Round 1, server: reads the NUL byte and the AUTH line, accepts the
matching UID, sends `OK <guid>`, and blocks waiting for the next line. -/
theorem handshakePhase2 (uid : Nat) (hu : uid < 4294967296) (g : Guid) :
    serverAdvance
      ⟨⟨nulC :: authLine uid, []⟩, [], .waitingForNull, g, false, uid⟩ =
      (.wouldBlock,
        ⟨⟨[], okLine g⟩, [], .waitingForBegin, g, false, uid⟩) := by
  have hdisp : serverAuthDispatch
      (splitWhitespace ((strL "AUTH EXTERNAL " ++ uidHexChars uid) ++ crlf)) =
      .authExternal (uidHexChars uid) := by
    rw [show (strL "AUTH EXTERNAL " ++ uidHexChars uid) ++ crlf =
      strL "AUTH EXTERNAL " ++ uidHexChars uid ++ crlf from rfl,
      splitWhitespace_auth_external (uidHexChars uid) (uidHex_ne_nil uid)
        (uidHex_no_ws uid)]
    exact serverAuthDispatch_authExternal (uidHexChars uid)
  unfold serverAdvance
  show serverAdvanceF ((2 * (nulC :: authLine uid).length + 7) + 1)
    ⟨⟨nulC :: authLine uid, []⟩, [], .waitingForNull, g, false, uid⟩ = _
  rw [serverAdvanceF_nul]
  show serverAdvanceF ((2 * (nulC :: authLine uid).length + 4) + 3)
    ⟨⟨(strL "AUTH EXTERNAL " ++ uidHexChars uid) ++ crlf, []⟩, [],
      .waitingForAuth, g, false, uid⟩ = _
  rw [serverAdvanceF_auth_accept _ _ _ (uidHex_plainBody uid) g false uid
    (uidHexChars uid) hdisp (id_from_str_uidHex uid hu)]
  rfl

/-- Round 2, client: parses `OK <guid>`, records the GUID, sends
`NEGOTIATE_UNIX_FD` and blocks. -/
theorem handshakePhase3 (uid : Nat) (g : Guid) :
    clientAdvance ⟨⟨okLine g, []⟩, [], [], .waitOauth, none, false, uid⟩ =
      (.wouldBlock,
        ⟨⟨[], negotiateLine⟩, [], [], .waitNegociateFd, some g, false, uid⟩) := by
  have hread := client_readCommand_line2 (strL "OK " ++ g.val) [] [] []
    (guid_plainBody g) .waitOauth none false uid
  have hline := readLine_plain (strL "OK " ++ g.val) (guid_plainBody g)
  have hsplit := splitWhitespace_ok_guid g.val (guid_val_ne_nil g)
    (fun c hc => ((guid_val_facts g).2 c hc).2)
  unfold clientAdvance
  simp only [okLine, clientAdvanceF, client_flush_eq, List.append_nil,
    List.nil_append, hread, hline, hsplit, clientOauthGuidTok_ok,
    guid_tryFrom_val, client_readCommand_empty2]

/-- Round 2, server: accepts `NEGOTIATE_UNIX_FD`, sets the capability,
sends `AGREE_UNIX_FD`, and blocks again in `WaitingForBegin`. -/
theorem handshakePhase4 (uid : Nat) (g : Guid) :
    serverAdvance ⟨⟨negotiateLine, []⟩, [], .waitingForBegin, g, false, uid⟩ =
      (.wouldBlock, ⟨⟨[], agreeLine⟩, [], .waitingForBegin, g, true, uid⟩) := by
  unfold serverAdvance
  show serverAdvanceF ((2 * negotiateLine.length + 5) + 3)
    ⟨⟨strL "NEGOTIATE_UNIX_FD" ++ crlf, []⟩, [], .waitingForBegin, g, false,
      uid⟩ = _
  rw [serverAdvanceF_begin_negotiate _ _ _ (by decide) g false uid (by decide)]
  rfl

/-- Round 3, client: reads `AGREE_UNIX_FD`, sets the capability, sends
`BEGIN` and finishes. -/
theorem handshakePhase5 (uid : Nat) (g : Guid) :
    clientAdvance
      ⟨⟨agreeLine, []⟩, [], [], .waitNegociateFd, some g, false, uid⟩ =
      (.ok, ⟨⟨[], beginLine⟩, agreeLine, [], .done, some g, true, uid⟩) := by
  have hread := client_readCommand_line2 (strL "AGREE_UNIX_FD") [] [] []
    (by decide) .waitNegociateFd (some g) false uid
  have hpre : (strL "AGREE_UNIX_FD").isPrefixOf
      (strL "AGREE_UNIX_FD" ++ crlf) = true := by decide
  unfold clientAdvance
  simp only [agreeLine, clientAdvanceF, client_flush_eq, List.append_nil,
    List.nil_append, hread, hpre, if_true]

/-- Round 3, server: reads `BEGIN` and finishes. -/
theorem handshakePhase6 (uid : Nat) (g : Guid) :
    serverAdvance ⟨⟨beginLine, []⟩, [], .waitingForBegin, g, true, uid⟩ =
      (.ok, ⟨⟨[], []⟩, beginLine, .done, g, true, uid⟩) := by
  unfold serverAdvance
  show serverAdvanceF ((2 * beginLine.length + 6) + 2)
    ⟨⟨strL "BEGIN" ++ crlf, []⟩, [], .waitingForBegin, g, true, uid⟩ = _
  rw [serverAdvanceF_begin_done _ _ _ (by decide) g true uid (by decide)]
  rfl

/-- C1: for every pair of connected in-memory socket endpoints where the
server handshake is constructed with the client's UID as the expected UID,
driving both `advance_handshake` loops to completion (alternating rounds,
as the handshake test does) and calling `try_finish` on both sides yields
two `Authenticated` values whose `server_guid` fields are equal and whose
`cap_unix_fd` fields are equal. -/
theorem client_server_handshake_converge (uid : Nat)
    (hu : uid < 4294967296) (g : Guid) :
    ∃ cf sf a b,
      driveLoop 3 (ClientHandshake.new uid) (ServerHandshake.new g uid) =
        some (cf, sf) ∧
      cf.tryFinish = some a ∧ sf.tryFinish = some b ∧
      a.serverGuid = b.serverGuid ∧ a.capUnixFd = b.capUnixFd := by
  have h1 := handshakePhase1 uid
  simp only [ClientHandshake.new] at h1
  have h2 := handshakePhase2 uid hu g
  have h3 := handshakePhase3 uid g
  have h4 := handshakePhase4 uid g
  have h5 := handshakePhase5 uid g
  have h6 := handshakePhase6 uid g
  refine ⟨⟨⟨[], []⟩, agreeLine, [], .done, some g, true, uid⟩,
          ⟨⟨[], []⟩, beginLine, .done, g, true, uid⟩,
          ⟨⟨[], []⟩, g, true⟩, ⟨⟨[], []⟩, g, true⟩, ?_, rfl, rfl, rfl, rfl⟩
  simp only [driveLoop, driveRound, pushCtoS, pushStoC, ClientHandshake.new,
    ServerHandshake.new, h1, h2, h3, h4, h5, h6, List.nil_append,
    List.append_nil]

/-- C1 witness at uid 1000 and a concrete GUID. -/
theorem client_server_handshake_converge_witness :
    ∃ cf sf a b,
      driveLoop 3 (ClientHandshake.new 1000) (ServerHandshake.new guidA 1000) =
        some (cf, sf) ∧
      cf.tryFinish = some a ∧ sf.tryFinish = some b ∧
      a.serverGuid = b.serverGuid ∧ a.capUnixFd = b.capUnixFd :=
  client_server_handshake_converge 1000 (by decide) guidA

end Zbus
